import Mathlib

/-!
Verification of the UnitTesting orchestration engine.

This file gives a shallow embedding of the unit-test orchestration core
(result aggregation, suite/test entities, dependency resolver, execution
scheduler) and proves properties of it.  The embedding follows revision two
of the source (`UnitTesting.cpp` together with its header); revision one's
aggregation folds are embedded separately for the refinement comparison.

Conventions of the embedding:
* machine containers (`std::vector`, `std::map`) become Lean lists and
  association lists;
* the externally supplied control policy is a structure of pure decision
  functions over an explicit policy-state type `σ`, threaded through every
  call, so stateful policies (for example attempt counters) are expressible;
* externally supplied code (fixtures, test bodies) is data: the list of
  assertion outcomes it reports plus a flag saying whether it faults
  (throws); the core never inspects fault payloads, matching the source;
* the unbounded loops of the source (depth-first traversal, the
  repeat-until-done test loop) take an explicit fuel argument; running out
  of fuel is a distinguished value that the theorems exclude or quantify
  around;
* reaching undefined behaviour of the source (dereferencing a failed map
  lookup) is the distinguished value `undef`.
-/

namespace UnitTesting

/-- Outcome of a test entity, from `enum class Result` in the header. -/
inductive Result where
| Success
| Fail
| Unknown
deriving DecidableEq, Repr

/-- Decision values returned by the control policy, from `enum class ControlAction`. -/
inductive ControlAction where
| Procceed
| Ignore
| Abort
| AbortCurrent
| Repeat
deriving DecidableEq, Repr

/-- Severity of an outcome under the order Fail > Unknown > Success. -/
def severity : Result → Nat
| Result.Success => 0
| Result.Unknown => 1
| Result.Fail => 2

/-- Maximum of two outcomes by severity. -/
def sevMax (a b : Result) : Result :=
if severity a < severity b then b else a

/-- Maximum-severity outcome of a list of outcomes (Success for the empty list). -/
def maxSeverity (l : List Result) : Result :=
l.foldl sevMax Result.Success

namespace ResultObject

/-- The shared aggregation step of revision two, from `ResultObject::AddResult`:
the total is overwritten by the new outcome exactly when the total is not
already Fail and the new outcome is not Success. -/
def AddResult (total result : Result) : Result :=
if total ≠ Result.Fail ∧ result ≠ Result.Success then result else total

end ResultObject

namespace Rev1

/-- Revision one inline aggregation step of `TestResult::AddResult` on the
total field: when the total is Success or Unknown and the incoming outcome is
Unknown or Fail, the total becomes the incoming outcome. -/
def TestResult.addFold (total r : Result) : Result :=
if total = Result.Success ∨ total = Result.Unknown then
  if r = Result.Unknown ∨ r = Result.Fail then r else total
else total

/-- Revision one inline aggregation step of `SuiteResult::AddResult` on the
total field, same shape as the test-level fold. -/
def SuiteResult.addFold (total r : Result) : Result :=
if total = Result.Success ∨ total = Result.Unknown then
  if r = Result.Unknown ∨ r = Result.Fail then r else total
else total

end Rev1

/-- Identity of a registered entity, from `struct Info` (back references to
the owning entities are dropped: they are only used for reporting). -/
structure Info where
  name : String
  file : String
  line : Nat
deriving DecidableEq, Repr

/-- A test body as the core observes it: the assertion outcomes it reports
through `TestContext::AddResult` in call order, and whether it ends by
throwing. -/
structure TestBody where
  asserts : List (Bool × String)
  faults : Bool
deriving DecidableEq, Repr

/-- A registered test, from `class Test`. -/
structure Test where
  m_Info : Info
  body : TestBody
deriving DecidableEq, Repr

/-- An assertion outcome: in revision two an `AssertResult` is a
`ResultObject` whose total is obtained by folding the supplied outcome into
the initial Success, which equals the supplied outcome itself. -/
structure AssertResult where
  result : Result
  message : String
deriving DecidableEq, Repr

/-- A test outcome, from `class TestResult`: the recorded assertion outcomes
in order, the aggregated total, and the owning test (`m_Test`). -/
structure TestResult where
  testName : String
  results : List AssertResult
  total : Result
deriving DecidableEq, Repr

/-- A fresh test outcome for a test, as built by `TestResult(Test*)`:
no assertions, total Success. -/
def TestResult.fresh (t : Test) : TestResult :=
{ testName := t.m_Info.name, results := [], total := Result.Success }

/-- `TestResult::AddResult`: append the assertion outcome and fold its total
into the aggregate. -/
def TestResult.AddResult (tr : TestResult) (a : AssertResult) : TestResult :=
{ tr with results := tr.results ++ [a],
          total := ResultObject.AddResult tr.total a.result }

/-- The assertion outcomes a test body reports, folded into a test result:
`TestContext::AddResult` converts the boolean to Success or Fail. -/
def TestResult.applyAsserts (tr : TestResult) (l : List (Bool × String)) : TestResult :=
l.foldl
  (fun r p =>
    r.AddResult { result := if p.1 then Result.Success else Result.Fail, message := p.2 })
  tr

/-- A fixture function of a suite, from `class SuiteFunction`: its identity
and whether invoking it throws.  An unregistered fixture is the null
function, which never throws. -/
structure SuiteFunction where
  faults : Bool
  m_Info : Info
deriving DecidableEq, Repr

/-- The null suite function: never throws. -/
def SuiteFunction.null : SuiteFunction :=
{ faults := false, m_Info := { name := "", file := "", line := 0 } }

/-- A registered suite, from `class Suite`: identity, dependency names in
registration order, owned tests in registration order, and the four optional
fixture functions. -/
structure Suite where
  m_Info : Info
  m_Dependencies : List String
  m_Tests : List Test
  m_Init : SuiteFunction
  m_Enter : SuiteFunction
  m_Leave : SuiteFunction
  m_Exit : SuiteFunction
deriving DecidableEq, Repr

/-- A suite with nothing registered. -/
def Suite.empty : Suite :=
{ m_Info := { name := "", file := "", line := 0 },
  m_Dependencies := [], m_Tests := [],
  m_Init := SuiteFunction.null, m_Enter := SuiteFunction.null,
  m_Leave := SuiteFunction.null, m_Exit := SuiteFunction.null }

/-- A suite outcome, from `class SuiteResult`: the owning suite's name, the
recorded test outcomes in order, and the aggregated total. -/
structure SuiteResult where
  suiteName : String
  results : List TestResult
  total : Result
deriving DecidableEq, Repr

/-- A fresh suite outcome, as built by `SuiteResult(Suite*)`. -/
def SuiteResult.fresh (nm : String) : SuiteResult :=
{ suiteName := nm, results := [], total := Result.Success }

/-- `SuiteResult::AddResult`: append the test outcome and fold its total into
the aggregate. -/
def SuiteResult.AddResult (sr : SuiteResult) (tr : TestResult) : SuiteResult :=
{ sr with results := sr.results ++ [tr],
          total := ResultObject.AddResult sr.total tr.total }

/-- `SuiteResult::SetTotalResult` of revision two: forcibly overwrite the
total (the recorded test outcomes are kept). -/
def SuiteResult.SetTotalResult (sr : SuiteResult) (r : Result) : SuiteResult :=
{ sr with total := r }

/-- An environment outcome, from `class EnvironmentResult`. -/
structure EnvResult where
  results : List SuiteResult
  total : Result
deriving DecidableEq, Repr

/-- The empty environment outcome. -/
def EnvResult.empty : EnvResult :=
{ results := [], total := Result.Success }

/-- `EnvironmentResult::AddResult`: append the suite outcome and fold its
total into the aggregate. -/
def EnvResult.AddResult (er : EnvResult) (sr : SuiteResult) : EnvResult :=
{ er with results := er.results ++ [sr],
          total := ResultObject.AddResult er.total sr.total }

/-- The externally supplied control policy, from `class ControlCallback`, as
pure decision functions over a policy-state type `σ`.  Only the hooks whose
return value steers the core's control flow are modelled; the notification
hooks (`OnBegin`, `OnSuiteBegin`, `OnTestBegin`, `OnAssert`, `OnSuiteEnd`,
`OnEnd`, `OnUnsolvableDependencies`) return nothing and do not affect the
core's state, so they are dropped from the embedding. -/
structure ControlCallback (σ : Type) where
  OnTestEnd : σ → TestResult → Bool × σ
  OnException : σ → Info → ControlAction × σ
  OnDependencyFail : σ → Suite → String → SuiteResult → ControlAction × σ
  OnUnknownDependency : σ → Suite → String → ControlAction × σ

variable {σ : Type}

/-- `Test::Run` of revision two: run the body; on a fault consult
`OnException` — Abort returns false to the caller, AbortCurrent returns true,
Ignore falls through, Procceed appends the synthetic failed assertion with
the fixed message before returning true.  Timing is dropped. -/
def Test.Run (pol : ControlCallback σ) (t : Test) (result : TestResult) (s : σ) :
    Bool × TestResult × σ :=
  let r1 := result.applyAsserts t.body.asserts
  if t.body.faults then
    let (action, s1) := pol.OnException s t.m_Info
    if action = ControlAction.Abort then (false, r1, s1)
    else if action = ControlAction.AbortCurrent then (true, r1, s1)
    else if action = ControlAction.Procceed then
      (true, r1.AddResult { result := Result.Fail, message := "Unknown Exception was thrown." }, s1)
    else (true, r1, s1)
  else (true, r1, s)

/-- Outcome of `Suite::ExecFunction`: either the fixture completed (possibly
after a swallowed fault) or the enclosing `Suite::Run` must return the given
procceed flag. -/
inductive ExecOutcome where
| ok
| stop (procceed : Bool)
deriving DecidableEq, Repr

/-- `Suite::ExecFunction` of revision two: on a fixture fault consult
`OnException` — Ignore or Procceed swallow it; AbortCurrent stops the suite
with procceed true; any other decision stops the suite with procceed false. -/
def Suite.ExecFunction (pol : ControlCallback σ) (f : SuiteFunction) (s : σ) :
    ExecOutcome × σ :=
  if f.faults then
    let (action, s1) := pol.OnException s f.m_Info
    if action = ControlAction.Ignore ∨ action = ControlAction.Procceed then
      (ExecOutcome.ok, s1)
    else if action = ControlAction.AbortCurrent then (ExecOutcome.stop true, s1)
    else (ExecOutcome.stop false, s1)
  else (ExecOutcome.ok, s)

/-- Outcome of the repeat-until-done loop around one test inside
`Suite::Run`: either a final test outcome to record, or an early return from
`Suite::Run` with the given procceed flag. -/
inductive TestLoopRes where
| done (tr : TestResult)
| stop (procceed : Bool)
deriving DecidableEq, Repr

/-- The do-while loop of `Suite::Run` around one test: each iteration builds
a fresh test outcome, runs the enter fixture, the test body and the leave
fixture, then repeats while `OnTestEnd` says so.  Fuel bounds the number of
iterations; the source enforces no bound. -/
def Suite.runTestAttempts (pol : ControlCallback σ) (su : Suite) (t : Test) :
    Nat → σ → Option (TestLoopRes × σ)
| 0, _ => none
| Nat.succ fuel, s =>
  match Suite.ExecFunction pol su.m_Enter s with
  | (ExecOutcome.stop p, s1) => some (TestLoopRes.stop p, s1)
  | (ExecOutcome.ok, s1) =>
    match Test.Run pol t (TestResult.fresh t) s1 with
    | (pr, tr, s2) =>
      if pr then
        match Suite.ExecFunction pol su.m_Leave s2 with
        | (ExecOutcome.stop p, s3) => some (TestLoopRes.stop p, s3)
        | (ExecOutcome.ok, s3) =>
          let (rep, s4) := pol.OnTestEnd s3 tr
          if rep then Suite.runTestAttempts pol su t fuel s4
          else some (TestLoopRes.done tr, s4)
      else some (TestLoopRes.stop false, s2)

/-- The per-test loop of `Suite::Run` over the remaining tests, ending with
the exit fixture.  Returns the `Suite::Run` boolean, the accumulated suite
outcome (also on early return: the caller records it regardless), and the
policy state. -/
def Suite.runTests (pol : ControlCallback σ) (su : Suite) (fuel : Nat) :
    List Test → SuiteResult → σ → Option (Bool × SuiteResult × σ)
| [], sr, s =>
  match Suite.ExecFunction pol su.m_Exit s with
  | (ExecOutcome.stop p, s1) => some (p, sr, s1)
  | (ExecOutcome.ok, s1) => some (true, sr, s1)
| t :: rest, sr, s =>
  match Suite.runTestAttempts pol su t fuel s with
  | none => none
  | some (TestLoopRes.stop p, s1) => some (p, sr, s1)
  | some (TestLoopRes.done tr, s1) => Suite.runTests pol su fuel rest (sr.AddResult tr) s1

/-- `Suite::Run` of revision two: init fixture, per-test loop, exit fixture.
The returned boolean is false exactly when an abort-entire-run decision was
taken inside the suite. -/
def Suite.Run (pol : ControlCallback σ) (fuel : Nat) (su : Suite) (s : σ) :
    Option (Bool × SuiteResult × σ) :=
  match Suite.ExecFunction pol su.m_Init s with
  | (ExecOutcome.stop p, s1) => some (p, SuiteResult.fresh su.m_Info.name, s1)
  | (ExecOutcome.ok, s1) =>
    Suite.runTests pol su fuel su.m_Tests (SuiteResult.fresh su.m_Info.name) s1

/-- Lookup in the name-to-index map, modelling `std::map::find`.  The map is
kept as an association list with at most one entry per key. -/
def mapFind : List (String × Nat) → String → Option Nat
| [], _ => none
| (k, v) :: rest, nm => if k = nm then some v else mapFind rest nm

/-- Insertion by `std::map::emplace`, as used by `Environment::RegisterSuite`:
the entry is added only when the key is not yet present — an existing entry
is never overwritten. -/
def mapEmplace (m : List (String × Nat)) (k : String) (v : Nat) : List (String × Nat) :=
  if (mapFind m k).isSome then m else (k, v) :: m

/-- The environment registry, from `class Environment`: the insertion-ordered
suite list, the name-to-index map, and the installed filters (each filter is
its `IsOK` predicate on suites). -/
structure Environment where
  m_Suites : List Suite
  m_SuiteMap : List (String × Nat)
  m_Filter : List (Suite → Bool)

/-- The freshly constructed environment. -/
def Environment.new : Environment :=
{ m_Suites := [], m_SuiteMap := [], m_Filter := [] }

/-- `Environment::RegisterSuite`: emplace the name with the next index, then
append the suite. -/
def Environment.RegisterSuite (env : Environment) (su : Suite) : Environment :=
{ env with m_SuiteMap := mapEmplace env.m_SuiteMap su.m_Info.name env.m_Suites.length,
           m_Suites := env.m_Suites ++ [su] }

/-- Register a list of suites in order into a fresh environment. -/
def registerAll (l : List Suite) : Environment :=
l.foldl Environment.RegisterSuite Environment.new

/-- `Environment::AllowSuite`: a suite is admitted as a traversal root iff
every installed filter accepts it. -/
def Environment.AllowSuite (env : Environment) (su : Suite) : Bool :=
env.m_Filter.all (fun f => f su)

/-- The suite stored at an index (the source indexes `m_Suites` only with
valid indices). -/
def Environment.suiteAt (env : Environment) (i : Nat) : Suite :=
env.m_Suites.getD i Suite.empty

/-- Outcome of `Environment::CheckDependencies`: either all dependency
outcomes passed (or were ignored), or the current suite is skipped with the
given procceed flag. -/
inductive CheckRes where
| ok
| stop (procceed : Bool)
deriving DecidableEq, Repr

/-- The loop of `Environment::CheckDependencies` over the declared dependency
names of a suite: each name is looked up with `m_SuiteMap[name]` (value
initialised to 0 when absent), routed through `resultConnector` to the
already-recorded suite outcome, and a non-Success outcome is surfaced to
`OnDependencyFail`. -/
def Environment.checkDepsLoop (env : Environment) (pol : ControlCallback σ) (su : Suite)
    (er : EnvResult) (rc : List Nat) : List String → σ → CheckRes × σ
| [], s => (CheckRes.ok, s)
| depName :: rest, s =>
  let suiteID := (mapFind env.m_SuiteMap depName).getD 0
  let resultID := rc.getD suiteID 0
  let suiteRes := er.results.getD resultID (SuiteResult.fresh "")
  if suiteRes.total ≠ Result.Success then
    let (action, s1) := pol.OnDependencyFail s su suiteRes.suiteName suiteRes
    if action = ControlAction.Ignore then env.checkDepsLoop pol su er rc rest s1
    else if action = ControlAction.AbortCurrent then (CheckRes.stop true, s1)
    else (CheckRes.stop false, s1)
  else env.checkDepsLoop pol su er rc rest s

/-- `Environment::CheckDependencies` of revision two. -/
def Environment.CheckDependencies (env : Environment) (pol : ControlCallback σ) (su : Suite)
    (er : EnvResult) (rc : List Nat) (s : σ) : CheckRes × σ :=
env.checkDepsLoop pol su er rc su.m_Dependencies s

/-- The mutable state of `Environment::RunSuites`: the accumulated
environment outcome, the `resultConnector` vector mapping suite indices to
positions in the outcome, and the policy state. -/
structure RunState (σ : Type) where
  er : EnvResult
  rc : List Nat
  ps : σ
deriving Repr

/-- Recording step shared by both branches of the `RunSuites` loop body:
`resultConnector[m_SuiteMap[name]] = result.GetResultCount()` followed by
`result.AddResult(suiteResult)`. -/
def Environment.record (env : Environment) (rs : RunState σ) (i : Nat)
    (sr : SuiteResult) (s : σ) : RunState σ :=
{ er := rs.er.AddResult sr,
  rc := rs.rc.set ((mapFind env.m_SuiteMap (env.suiteAt i).m_Info.name).getD 0)
          rs.er.results.length,
  ps := s }

/-- One iteration of the `Environment::RunSuites` loop for the suite at index
`i`: dependency check, then either the suite runs, or its outcome is forced
to Unknown; either way the outcome is recorded.  The returned boolean is the
procceed flag after the iteration. -/
def Environment.processSuite (env : Environment) (pol : ControlCallback σ) (tfuel : Nat)
    (rs : RunState σ) (i : Nat) : Option (Bool × SuiteResult × RunState σ) :=
  let su := env.suiteAt i
  match env.CheckDependencies pol su rs.er rs.rc rs.ps with
  | (CheckRes.ok, s1) =>
    match Suite.Run pol tfuel su s1 with
    | none => none
    | some (pr, sr, s2) => some (pr, sr, env.record rs i sr s2)
  | (CheckRes.stop p, s1) =>
    let sr := (SuiteResult.fresh su.m_Info.name).SetTotalResult Result.Unknown
    some (p, sr, env.record rs i sr s1)

/-- The loop of `Environment::RunSuites` over the resolved order: after each
iteration, a false procceed flag returns immediately, leaving the remaining
suites unexecuted. -/
def Environment.runSuitesLoop (env : Environment) (pol : ControlCallback σ) (tfuel : Nat) :
    List Nat → RunState σ → Option (Bool × RunState σ)
| [], rs => some (true, rs)
| i :: rest, rs =>
  match env.processSuite pol tfuel rs i with
  | none => none
  | some (pr, _, rs1) =>
    if pr then env.runSuitesLoop pol tfuel rest rs1 else some (false, rs1)

/-- `Environment::RunSuites` of revision two: the `resultConnector` vector
starts as `m_Suites.size()` zeroes. -/
def Environment.RunSuites (env : Environment) (pol : ControlCallback σ) (tfuel : Nat)
    (order : List Nat) (s : σ) : Option (Bool × RunState σ) :=
env.runSuitesLoop pol tfuel order
  { er := EnvResult.empty, rc := List.replicate env.m_Suites.length 0, ps := s }

/-- Run a prefix of the resolved order requiring every iteration to end with
a true procceed flag; used to speak about the state of `RunSuites` at the
moment a later suite's dependency check executes. -/
def Environment.runPrefixOk (env : Environment) (pol : ControlCallback σ) (tfuel : Nat) :
    List Nat → RunState σ → Option (RunState σ)
| [], rs => some rs
| i :: rest, rs =>
  match env.processSuite pol tfuel rs i with
  | some (true, _, rs1) => env.runPrefixOk pol tfuel rest rs1
  | _ => none

/-- The traversal state of `Environment::SolveDependencies`: the
reverse-postorder result, the finished marks (`mark[i].first`), the on-stack
marks (`mark[i].second`), the collected unsolvable set, and the policy
state. -/
structure TopoState (σ : Type) where
  result : List Nat
  markFirst : List Bool
  markSecond : List Bool
  unsolvable : List Nat
  ps : σ
deriving Repr

/-- Return value of `Environment::TopoVisit`: 0 is ok, 1 a detected cycle,
2 an unknown-dependency abort.  `undef` marks the path on which the source
dereferences the failed map lookup (undefined behaviour); `noFuel` marks
fuel exhaustion of the embedding. -/
inductive VisitRes where
| ok
| cycle
| unknownAbort
| undef
| noFuel
deriving DecidableEq, Repr

/-- The dependency-edge loop inside `Environment::TopoVisit`, parameterised
by the sub-visit function (the traversal at the remaining recursion depth).
A name with no map entry consults `OnUnknownDependency`: on any decision
other than Ignore the traversal aborts with return value 2; on Ignore the
source falls through and dereferences the failed lookup — undefined
behaviour, `undef` here.  A sub-visit returning 1 appends the visited
dependency index to the unsolvable set before propagating. -/
def Environment.visitDeps (env : Environment) (pol : ControlCallback σ)
    (visit : Nat → TopoState σ → TopoState σ × VisitRes) (cur : Nat) :
    List String → TopoState σ → TopoState σ × VisitRes
| [], st => (st, VisitRes.ok)
| depName :: rest, st =>
  if st.markFirst.getD cur false then env.visitDeps pol visit cur rest st
  else
    match mapFind env.m_SuiteMap depName with
    | none =>
      let (action, s1) := pol.OnUnknownDependency st.ps (env.suiteAt cur) depName
      if action = ControlAction.Ignore then ({ st with ps := s1 }, VisitRes.undef)
      else ({ st with ps := s1 }, VisitRes.unknownAbort)
    | some depIdx =>
      match visit depIdx st with
      | (st1, VisitRes.ok) => env.visitDeps pol visit cur rest st1
      | (st1, VisitRes.cycle) =>
        ({ st1 with unsolvable := st1.unsolvable ++ [depIdx] }, VisitRes.cycle)
      | other => other

/-- `Environment::TopoVisit` of revision two: classic three-colour
depth-first traversal.  An on-stack node is a cycle; a finished node is
skipped; otherwise the node goes on the stack, its dependency edges are
visited, and on success it is finished and appended to the order.  The fuel
bounds the recursion depth of the embedding; the source recursion depth is
bounded by the number of suites. -/
def Environment.TopoVisit (env : Environment) (pol : ControlCallback σ) :
    Nat → Nat → TopoState σ → TopoState σ × VisitRes
| 0, _, st => (st, VisitRes.noFuel)
| Nat.succ fuel, cur, st =>
  if st.markSecond.getD cur false then (st, VisitRes.cycle)
  else if st.markFirst.getD cur false then (st, VisitRes.ok)
  else
    let st1 : TopoState σ := { st with markSecond := st.markSecond.set cur true }
    match env.visitDeps pol (env.TopoVisit pol fuel) cur
        (env.suiteAt cur).m_Dependencies st1 with
    | (st2, VisitRes.ok) =>
      ({ st2 with markFirst := st2.markFirst.set cur true,
                  markSecond := st2.markSecond.set cur false,
                  result := st2.result ++ [cur] }, VisitRes.ok)
    | other => other

/-- Outcome of `Environment::SolveDependencies`: a resolved order, or a
failure carrying the unsolvable set that is reported to
`OnUnsolvableDependencies` exactly when it is nonempty (the computed partial
order is cleared). -/
inductive SolveRes (σ : Type) where
| success (order : List Nat) (ps : σ)
| failure (unsolvable : List Nat) (ps : σ)
| undef
| noFuel
deriving Repr

/-- The root loop of `Environment::SolveDependencies`: every unfinished suite
admitted by the filter chain is used as a traversal root, in ascending
registration index. -/
def Environment.solveLoop (env : Environment) (pol : ControlCallback σ) (fuel : Nat) :
    Nat → Nat → TopoState σ → SolveRes σ
| 0, _, st => SolveRes.success st.result st.ps
| Nat.succ rem, i, st =>
  if ¬ st.markFirst.getD i false ∧ env.AllowSuite (env.suiteAt i) then
    match env.TopoVisit pol fuel i st with
    | (st1, VisitRes.ok) => env.solveLoop pol fuel rem (i + 1) st1
    | (st1, VisitRes.cycle) => SolveRes.failure st1.unsolvable st1.ps
    | (st1, VisitRes.unknownAbort) => SolveRes.failure st1.unsolvable st1.ps
    | (_, VisitRes.undef) => SolveRes.undef
    | (_, VisitRes.noFuel) => SolveRes.noFuel
  else env.solveLoop pol fuel rem (i + 1) st

/-- `Environment::SolveDependencies` of revision two. -/
def Environment.SolveDependencies (env : Environment) (pol : ControlCallback σ)
    (fuel : Nat) (s : σ) : SolveRes σ :=
env.solveLoop pol fuel env.m_Suites.length 0
  { result := [],
    markFirst := List.replicate env.m_Suites.length false,
    markSecond := List.replicate env.m_Suites.length false,
    unsolvable := [], ps := s }

/-- Outcome of `Environment::Run`: either the scheduler ran over a resolved
order (possibly aborting part way, with the partial environment outcome),
or resolution failed and nothing was executed — the environment outcome
stays empty. -/
inductive RunOutcome (σ : Type) where
| completed (finished : Bool) (er : EnvResult) (ps : σ)
| resolutionFailed (unsolvable : List Nat) (er : EnvResult)
| undef
| noFuel
deriving Repr

/-- `Environment::Run` of revision two: resolve, and only on success run the
suites.  The fallback console policy substitution is outside the model (a
policy is always supplied here). -/
def Environment.Run (env : Environment) (pol : ControlCallback σ)
    (fuel tfuel : Nat) (s : σ) : RunOutcome σ :=
  match env.SolveDependencies pol fuel s with
  | SolveRes.success order s1 =>
    match env.RunSuites pol tfuel order s1 with
    | none => RunOutcome.noFuel
    | some (fin, rs) => RunOutcome.completed fin rs.er rs.ps
  | SolveRes.failure u _ => RunOutcome.resolutionFailed u EnvResult.empty
  | SolveRes.undef => RunOutcome.undef
  | SolveRes.noFuel => RunOutcome.noFuel

/-! ### Unfolding equations for the resolver (all definitional) -/

theorem TopoVisit_zero_unfold {σ : Type} (env : Environment) (pol : ControlCallback σ)
    (cur : Nat) (st : TopoState σ) :
    env.TopoVisit pol 0 cur st = (st, VisitRes.noFuel) := rfl

theorem TopoVisit_succ_unfold {σ : Type} (env : Environment) (pol : ControlCallback σ)
    (fuel cur : Nat) (st : TopoState σ) :
    env.TopoVisit pol (fuel + 1) cur st
      = (if st.markSecond.getD cur false then (st, VisitRes.cycle)
         else if st.markFirst.getD cur false then (st, VisitRes.ok)
         else
           match env.visitDeps pol (env.TopoVisit pol fuel) cur
               (env.suiteAt cur).m_Dependencies
               { st with markSecond := st.markSecond.set cur true } with
           | (st2, VisitRes.ok) =>
             ({ st2 with markFirst := st2.markFirst.set cur true,
                         markSecond := st2.markSecond.set cur false,
                         result := st2.result ++ [cur] }, VisitRes.ok)
           | other => other) := rfl

theorem visitDeps_nil_unfold {σ : Type} (env : Environment) (pol : ControlCallback σ)
    (v : Nat → TopoState σ → TopoState σ × VisitRes) (cur : Nat) (st : TopoState σ) :
    env.visitDeps pol v cur [] st = (st, VisitRes.ok) := rfl

theorem visitDeps_cons_unfold {σ : Type} (env : Environment) (pol : ControlCallback σ)
    (v : Nat → TopoState σ → TopoState σ × VisitRes) (cur : Nat) (d : String)
    (rest : List String) (st : TopoState σ) :
    env.visitDeps pol v cur (d :: rest) st
      = (if st.markFirst.getD cur false then env.visitDeps pol v cur rest st
         else
           match mapFind env.m_SuiteMap d with
           | none =>
             match pol.OnUnknownDependency st.ps (env.suiteAt cur) d with
             | (action, s1) =>
               if action = ControlAction.Ignore then ({ st with ps := s1 }, VisitRes.undef)
               else ({ st with ps := s1 }, VisitRes.unknownAbort)
           | some depIdx =>
             match v depIdx st with
             | (st1, VisitRes.ok) => env.visitDeps pol v cur rest st1
             | (st1, VisitRes.cycle) =>
               ({ st1 with unsolvable := st1.unsolvable ++ [depIdx] }, VisitRes.cycle)
             | other => other) := rfl

/-! ### Aggregation lemmas -/

theorem addResult_eq_sevMax : ResultObject.AddResult = sevMax := by
  funext t r
  cases t <;> cases r <;> rfl

theorem foldl_addResult_eq_sevMax (l : List Result) (init : Result) :
    l.foldl ResultObject.AddResult init = l.foldl sevMax init := by
  rw [addResult_eq_sevMax]

theorem sevMax_rightComm (a b c : Result) :
    sevMax (sevMax a b) c = sevMax (sevMax a c) b := by
  cases a <;> cases b <;> cases c <;> rfl

theorem foldl_sevMax_perm {l1 l2 : List Result} (h : l1.Perm l2) :
    ∀ b, l1.foldl sevMax b = l2.foldl sevMax b := by
  induction h with
  | nil => intro b; rfl
  | cons x _ ih =>
    intro b
    simp only [List.foldl_cons]
    exact ih _
  | swap x y l =>
    intro b
    simp only [List.foldl_cons]
    rw [sevMax_rightComm]
  | trans _ _ ih1 ih2 =>
    intro b
    rw [ih1, ih2]

theorem foldl_sevMax_fail (l : List Result) : l.foldl sevMax Result.Fail = Result.Fail := by
  induction l with
  | nil => rfl
  | cons x rest ih =>
    simp only [List.foldl_cons]
    have hx : sevMax Result.Fail x = Result.Fail := by cases x <;> rfl
    rw [hx, ih]

theorem testResult_foldl_total (ars : List AssertResult) (tr : TestResult) :
    (ars.foldl TestResult.AddResult tr).total
      = (ars.map AssertResult.result).foldl ResultObject.AddResult tr.total := by
  induction ars generalizing tr with
  | nil => rfl
  | cons a rest ih =>
    simp only [List.foldl_cons, List.map_cons]
    exact ih _

theorem suiteResult_foldl_total (trs : List TestResult) (sr : SuiteResult) :
    (trs.foldl SuiteResult.AddResult sr).total
      = (trs.map TestResult.total).foldl ResultObject.AddResult sr.total := by
  induction trs generalizing sr with
  | nil => rfl
  | cons a rest ih =>
    simp only [List.foldl_cons, List.map_cons]
    exact ih _

theorem envResult_foldl_total (srs : List SuiteResult) (er : EnvResult) :
    (srs.foldl EnvResult.AddResult er).total
      = (srs.map SuiteResult.total).foldl ResultObject.AddResult er.total := by
  induction srs generalizing er with
  | nil => rfl
  | cons a rest ih =>
    simp only [List.foldl_cons, List.map_cons]
    exact ih _

/-- C1: for every aggregating result and every sequence of child outcomes
added through `AddResult`, the final total equals the maximum-severity
outcome of the sequence under Fail > Unknown > Success, independently of the
order in which the outcomes are added, and once the total is Fail no further
`AddResult` call changes it.  The last three conjuncts instantiate the rule
at the three aggregating levels (test, suite, environment), whose `AddResult`
operations all fold child totals with `ResultObject.AddResult` from the
initial Success. -/
theorem aggregate_total_is_max_severity (l l2 : List Result) (h : l.Perm l2)
    (t : Test) (nm : String) (ars : List AssertResult) (trs : List TestResult)
    (srs : List SuiteResult) :
    l.foldl ResultObject.AddResult Result.Success = maxSeverity l ∧
    l.foldl ResultObject.AddResult Result.Success
      = l2.foldl ResultObject.AddResult Result.Success ∧
    l.foldl ResultObject.AddResult Result.Fail = Result.Fail ∧
    (ars.foldl TestResult.AddResult (TestResult.fresh t)).total
      = maxSeverity (ars.map AssertResult.result) ∧
    (trs.foldl SuiteResult.AddResult (SuiteResult.fresh nm)).total
      = maxSeverity (trs.map TestResult.total) ∧
    (srs.foldl EnvResult.AddResult EnvResult.empty).total
      = maxSeverity (srs.map SuiteResult.total) := by
  refine ⟨?_, ?_, ?_, ?_, ?_, ?_⟩
  · rw [foldl_addResult_eq_sevMax]; rfl
  · rw [foldl_addResult_eq_sevMax, foldl_addResult_eq_sevMax]
    exact foldl_sevMax_perm h _
  · rw [foldl_addResult_eq_sevMax]; exact foldl_sevMax_fail l
  · rw [testResult_foldl_total, foldl_addResult_eq_sevMax]; rfl
  · rw [suiteResult_foldl_total, foldl_addResult_eq_sevMax]; rfl
  · rw [envResult_foldl_total, foldl_addResult_eq_sevMax]; rfl

/-- Witness for C1 at a concrete permutation pair and concrete level data. -/
theorem aggregate_total_is_max_severity_witness :
    [Result.Unknown, Result.Fail].foldl ResultObject.AddResult Result.Success
      = maxSeverity [Result.Unknown, Result.Fail] ∧
    [Result.Unknown, Result.Fail].foldl ResultObject.AddResult Result.Success
      = [Result.Fail, Result.Unknown].foldl ResultObject.AddResult Result.Success ∧
    [Result.Unknown, Result.Fail].foldl ResultObject.AddResult Result.Fail = Result.Fail ∧
    ([⟨Result.Fail, "m"⟩].foldl TestResult.AddResult
        (TestResult.fresh { m_Info := { name := "t", file := "", line := 0 },
                            body := { asserts := [], faults := false } })).total
      = maxSeverity ([⟨Result.Fail, "m"⟩].map AssertResult.result) ∧
    ([].foldl SuiteResult.AddResult (SuiteResult.fresh "s")).total
      = maxSeverity (List.map TestResult.total []) ∧
    ([].foldl EnvResult.AddResult EnvResult.empty).total
      = maxSeverity (List.map SuiteResult.total []) :=
  aggregate_total_is_max_severity [Result.Unknown, Result.Fail]
    [Result.Fail, Result.Unknown] (List.Perm.swap Result.Fail Result.Unknown [])
    _ "s" _ _ _

/-- C10: the per-addition aggregation folds of the two revisions agree
extensionally: revision one's inline folds in `TestResult::AddResult` and
`SuiteResult::AddResult` compute the same new total as revision two's shared
`ResultObject::AddResult`, for every current total and added outcome. -/
theorem addResult_revisions_agree :
    ∀ total r, Rev1.TestResult.addFold total r = ResultObject.AddResult total r ∧
               Rev1.SuiteResult.addFold total r = ResultObject.AddResult total r := by
  intro total r
  cases total <;> cases r <;> exact ⟨rfl, rfl⟩

/-! ### Registration lemmas -/

/-- Index of the earliest registered suite carrying a given name. -/
def firstIdxOfName : List Suite → String → Option Nat
| [], _ => none
| su :: rest, nm =>
  if su.m_Info.name = nm then some 0 else (firstIdxOfName rest nm).map (· + 1)

theorem foldl_register_suites : ∀ (l : List Suite) (env : Environment),
    (l.foldl Environment.RegisterSuite env).m_Suites = env.m_Suites ++ l := by
  intro l
  induction l with
  | nil => intro env; simp [List.foldl_nil]
  | cons su rest ih =>
    intro env
    simp only [List.foldl_cons]
    rw [ih]
    simp [Environment.RegisterSuite, List.append_assoc]

theorem register_suites_length (env : Environment) (su : Suite) :
    (env.RegisterSuite su).m_Suites.length = env.m_Suites.length + 1 := by
  simp [Environment.RegisterSuite]

theorem foldl_register_map : ∀ (l : List Suite) (env : Environment) (nm : String),
    mapFind (l.foldl Environment.RegisterSuite env).m_SuiteMap nm
      = (match mapFind env.m_SuiteMap nm with
         | some v => some v
         | none => (firstIdxOfName l nm).map (· + env.m_Suites.length)) := by
  intro l
  induction l with
  | nil =>
    intro env nm
    simp only [List.foldl_nil]
    cases h : mapFind env.m_SuiteMap nm <;> simp [h, firstIdxOfName]
  | cons su rest ih =>
    intro env nm
    simp only [List.foldl_cons]
    rw [ih (env.RegisterSuite su) nm]
    have hm : (env.RegisterSuite su).m_SuiteMap
        = mapEmplace env.m_SuiteMap su.m_Info.name env.m_Suites.length := rfl
    have hlen := register_suites_length env su
    by_cases hs : (mapFind env.m_SuiteMap su.m_Info.name).isSome
    · have hmap : (env.RegisterSuite su).m_SuiteMap = env.m_SuiteMap := by
        rw [hm, mapEmplace, if_pos hs]
      rw [hmap]
      cases h : mapFind env.m_SuiteMap nm with
      | some v => rfl
      | none =>
        have hne : ¬ su.m_Info.name = nm := by
          intro he
          rw [he, h] at hs
          simp at hs
        rw [firstIdxOfName, if_neg hne, hlen]
        cases firstIdxOfName rest nm <;> simp [Option.map]
        omega
    · have hnone : mapFind env.m_SuiteMap su.m_Info.name = none := by
        cases h : mapFind env.m_SuiteMap su.m_Info.name with
        | none => rfl
        | some v => rw [h] at hs; simp at hs
      have hmap : (env.RegisterSuite su).m_SuiteMap
          = (su.m_Info.name, env.m_Suites.length) :: env.m_SuiteMap := by
        rw [hm, mapEmplace, if_neg hs]
      rw [hmap]
      by_cases he : su.m_Info.name = nm
      · rw [mapFind, if_pos he, ← he, hnone]
        simp [firstIdxOfName]
      · rw [mapFind, if_neg he]
        cases h : mapFind env.m_SuiteMap nm with
        | some v => rfl
        | none =>
          rw [firstIdxOfName, if_neg he, hlen]
          cases firstIdxOfName rest nm <;> simp [Option.map]
          omega

theorem registerAll_suites (l : List Suite) : (registerAll l).m_Suites = l := by
  rw [registerAll, foldl_register_suites]
  rfl

theorem registerAll_lookup (l : List Suite) (nm : String) :
    mapFind (registerAll l).m_SuiteMap nm = firstIdxOfName l nm := by
  rw [registerAll, foldl_register_map]
  have h0 : mapFind Environment.new.m_SuiteMap nm = none := rfl
  rw [h0]
  cases firstIdxOfName l nm <;> simp [Option.map, Environment.new]

/-- C9 (as written) is false: the name map built with `std::map::emplace`
keeps the earliest registration under a given name, not the most recent one.
With two suites registered under the name A, the map sends A to index 0,
not to index 1. -/
theorem registerSuite_last_wins_counterexample :
    ¬ (mapFind (registerAll
          [{ Suite.empty with m_Info := { name := "A", file := "f0", line := 1 } },
           { Suite.empty with m_Info := { name := "A", file := "f1", line := 2 } }]).m_SuiteMap
        ("A") = some 1) ∧
    mapFind (registerAll
        [{ Suite.empty with m_Info := { name := "A", file := "f0", line := 1 } },
         { Suite.empty with m_Info := { name := "A", file := "f1", line := 2 } }]).m_SuiteMap
      ("A") = some 0 ∧
    (registerAll
        [{ Suite.empty with m_Info := { name := "A", file := "f0", line := 1 } },
         { Suite.empty with m_Info := { name := "A", file := "f1", line := 2 } }]).m_Suites.length
      = 2 := by
  refine ⟨by decide, by decide, by decide⟩

/-- C9 amended: after any sequence of suite registrations, the
name-to-index map sends every name to the index of the earliest registered
suite under that name (first registration wins), and duplicate registrations
are not rejected — every registered suite is retained in the suite list. -/
theorem registerSuite_first_wins (l : List Suite) (nm : String) :
    mapFind (registerAll l).m_SuiteMap nm = firstIdxOfName l nm ∧
    (registerAll l).m_Suites.length = l.length := by
  refine ⟨registerAll_lookup l nm, ?_⟩
  rw [registerAll_suites]

/-! ### Dependency-resolver scenarios -/

/-- Environment holding two suites X (index 0) and Y (index 1) that each
declare a dependency on the other. -/
def envCycle : Environment :=
registerAll
  [{ Suite.empty with m_Info := { name := "X", file := "", line := 0 },
                      m_Dependencies := ["Y"] },
   { Suite.empty with m_Info := { name := "Y", file := "", line := 0 },
                      m_Dependencies := ["X"] }]

/-- C3: with suites X and Y depending on each other, resolution fails, no
suite executes (the environment outcome stays empty), and the unsolvable set
handed to `OnUnsolvableDependencies` is exactly X and Y (indices 0 and 1),
each once, in stack-unwind order: X — the suite at which the cycle closed —
first, then Y. -/
theorem mutual_cycle_reported {σ : Type} (pol : ControlCallback σ) (s : σ) (f tfuel : Nat) :
    envCycle.SolveDependencies pol (f + 3) s = SolveRes.failure [0, 1] s ∧
    envCycle.Run pol (f + 3) tfuel s
      = RunOutcome.resolutionFailed [0, 1] EnvResult.empty :=
⟨rfl, rfl⟩

/-- Environment holding one suite (index 0) with the given name, declaring
one dependency on the given name. -/
def unknownDepEnv (nm depName : String) : Environment :=
registerAll
  [{ Suite.empty with m_Info := { name := nm, file := "", line := 0 },
                      m_Dependencies := [depName] }]

/-- C4: the code contradicts the specified Ignore behaviour.  When a
dependency name has no map entry and `OnUnknownDependency` answers Ignore,
the source does not skip the edge: it falls through to
`TopoVisit(dep->second, ...)` and dereferences the failed lookup (the
past-the-end iterator) — undefined behaviour, surfaced by the embedding as
`undef`.  The whole resolution, and `Run`, reach that undefined read. -/
theorem unknown_dependency_ignore_hits_undefined_read {σ : Type}
    (pol : ControlCallback σ) (s : σ) (f tfuel : Nat)
    (h : ∀ st su d, (pol.OnUnknownDependency st su d).1 = ControlAction.Ignore) :
    (unknownDepEnv ("X") ("nothere")).SolveDependencies pol (f + 1) s = SolveRes.undef ∧
    (unknownDepEnv ("X") ("nothere")).Run pol (f + 1) tfuel s = RunOutcome.undef := by
  cases hp : pol.OnUnknownDependency s ((unknownDepEnv ("X") ("nothere")).suiteAt 0) ("nothere") with
  | mk a s2 =>
    have ha : a = ControlAction.Ignore := by
      have hh := h s ((unknownDepEnv ("X") ("nothere")).suiteAt 0) ("nothere")
      rw [hp] at hh
      exact hh
    subst ha
    simp +decide [unknownDepEnv, registerAll, Environment.RegisterSuite, Environment.new,
      mapEmplace, mapFind, Environment.AllowSuite, Environment.suiteAt, Suite.empty] at hp
    constructor
    · simp only [Environment.SolveDependencies, Environment.solveLoop,
        Environment.TopoVisit, Environment.visitDeps]
      simp +decide [unknownDepEnv, registerAll, Environment.RegisterSuite, Environment.new,
        mapEmplace, mapFind, Environment.AllowSuite, Environment.suiteAt, Suite.empty, hp]
    · simp only [Environment.Run, Environment.SolveDependencies, Environment.solveLoop,
        Environment.TopoVisit, Environment.visitDeps]
      simp +decide [unknownDepEnv, registerAll, Environment.RegisterSuite, Environment.new,
        mapEmplace, mapFind, Environment.AllowSuite, Environment.suiteAt, Suite.empty, hp]

/-- Neither a successful visit nor an unknown-dependency abort touches the
unsolvable set: `TopoVisit` pushes to it only while propagating a detected
cycle (return value 1), never on return values 0 or 2. -/
theorem topo_ok_unknown_unsolvable {σ : Type} (env : Environment) (pol : ControlCallback σ) :
    ∀ fuel,
      (∀ cur st p, env.TopoVisit pol fuel cur st = p →
        (p.2 = VisitRes.ok ∨ p.2 = VisitRes.unknownAbort) →
        p.1.unsolvable = st.unsolvable) ∧
      (∀ l cur st p, env.visitDeps pol (env.TopoVisit pol fuel) cur l st = p →
        (p.2 = VisitRes.ok ∨ p.2 = VisitRes.unknownAbort) →
        p.1.unsolvable = st.unsolvable) := by
  intro fuel
  induction fuel with
  | zero =>
    have hP : ∀ cur st p, env.TopoVisit pol 0 cur st = p →
        (p.2 = VisitRes.ok ∨ p.2 = VisitRes.unknownAbort) →
        p.1.unsolvable = st.unsolvable := by
      intro cur st p hp hres
      rw [TopoVisit_zero_unfold] at hp
      subst hp
      rcases hres with h | h <;> exact VisitRes.noConfusion h
    refine ⟨hP, ?_⟩
    intro l
    induction l with
    | nil =>
      intro cur st p hp _
      rw [visitDeps_nil_unfold] at hp
      subst hp
      rfl
    | cons d rest ihl =>
      intro cur st p hp hres
      rw [visitDeps_cons_unfold] at hp
      by_cases hmf : st.markFirst.getD cur false = true
      · rw [if_pos hmf] at hp
        exact ihl cur st p hp hres
      · rw [if_neg hmf] at hp
        cases hfind : mapFind env.m_SuiteMap d with
        | none =>
          simp only [hfind] at hp
          cases hpc : pol.OnUnknownDependency st.ps (env.suiteAt cur) d with
          | mk a s1 =>
            simp only [hpc] at hp
            by_cases hig : a = ControlAction.Ignore
            · rw [if_pos hig] at hp
              subst hp
              rcases hres with h | h <;> exact VisitRes.noConfusion h
            · rw [if_neg hig] at hp
              subst hp
              rfl
        | some depIdx =>
          simp only [hfind, TopoVisit_zero_unfold] at hp
          subst hp
          rcases hres with h | h <;> exact VisitRes.noConfusion h
  | succ fuel ih =>
    have hP : ∀ cur st p, env.TopoVisit pol (fuel + 1) cur st = p →
        (p.2 = VisitRes.ok ∨ p.2 = VisitRes.unknownAbort) →
        p.1.unsolvable = st.unsolvable := by
      intro cur st p hp hres
      rw [TopoVisit_succ_unfold] at hp
      by_cases hms : st.markSecond.getD cur false = true
      · rw [if_pos hms] at hp
        subst hp
        rcases hres with h | h <;> exact VisitRes.noConfusion h
      · rw [if_neg hms] at hp
        by_cases hmf : st.markFirst.getD cur false = true
        · rw [if_pos hmf] at hp
          subst hp
          rfl
        · rw [if_neg hmf] at hp
          cases hv : env.visitDeps pol (env.TopoVisit pol fuel) cur
              (env.suiteAt cur).m_Dependencies
              { st with markSecond := st.markSecond.set cur true } with
          | mk st2 r =>
            simp only [hv] at hp
            cases r with
            | ok =>
              subst hp
              exact ih.2 _ cur { st with markSecond := st.markSecond.set cur true } (st2, VisitRes.ok) hv (Or.inl rfl)
            | cycle =>
              subst hp
              rcases hres with h | h <;> exact VisitRes.noConfusion h
            | unknownAbort =>
              subst hp
              exact ih.2 _ cur { st with markSecond := st.markSecond.set cur true } (st2, VisitRes.unknownAbort) hv (Or.inr rfl)
            | undef =>
              subst hp
              rcases hres with h | h <;> exact VisitRes.noConfusion h
            | noFuel =>
              subst hp
              rcases hres with h | h <;> exact VisitRes.noConfusion h
    refine ⟨hP, ?_⟩
    intro l
    induction l with
    | nil =>
      intro cur st p hp _
      rw [visitDeps_nil_unfold] at hp
      subst hp
      rfl
    | cons d rest ihl =>
      intro cur st p hp hres
      rw [visitDeps_cons_unfold] at hp
      by_cases hmf : st.markFirst.getD cur false = true
      · rw [if_pos hmf] at hp
        exact ihl cur st p hp hres
      · rw [if_neg hmf] at hp
        cases hfind : mapFind env.m_SuiteMap d with
        | none =>
          simp only [hfind] at hp
          cases hpc : pol.OnUnknownDependency st.ps (env.suiteAt cur) d with
          | mk a s1 =>
            simp only [hpc] at hp
            by_cases hig : a = ControlAction.Ignore
            · rw [if_pos hig] at hp
              subst hp
              rcases hres with h | h <;> exact VisitRes.noConfusion h
            · rw [if_neg hig] at hp
              subst hp
              rfl
        | some depIdx =>
          simp only [hfind] at hp
          cases hv : env.TopoVisit pol (fuel + 1) depIdx st with
          | mk st1 r =>
            simp only [hv] at hp
            cases r with
            | ok =>
              have h1 : st1.unsolvable = st.unsolvable :=
                hP depIdx st (st1, VisitRes.ok) hv (Or.inl rfl)
              rw [← h1]
              exact ihl cur st1 p hp hres
            | cycle =>
              subst hp
              rcases hres with h | h <;> exact VisitRes.noConfusion h
            | unknownAbort =>
              subst hp
              exact hP depIdx st (st1, VisitRes.unknownAbort) hv (Or.inr rfl)
            | undef =>
              subst hp
              rcases hres with h | h <;> exact VisitRes.noConfusion h
            | noFuel =>
              subst hp
              rcases hres with h | h <;> exact VisitRes.noConfusion h

/-- A concrete policy answering Abort to every decision, never repeating a
test. -/
def abortAllPol : ControlCallback Unit :=
{ OnTestEnd := fun s _ => (false, s),
  OnException := fun s _ => (ControlAction.Abort, s),
  OnDependencyFail := fun s _ _ _ => (ControlAction.Abort, s),
  OnUnknownDependency := fun s _ _ => (ControlAction.Abort, s) }

/-- A concrete policy like `abortAllPol` but answering Ignore to unknown
dependencies. -/
def ignoreUnknownPol : ControlCallback Unit :=
{ abortAllPol with OnUnknownDependency := fun s _ _ => (ControlAction.Ignore, s) }

/-- C5: a suite declaring a dependency on a name with no matching suite,
under a policy whose unknown-dependency decision is never Ignore, makes
resolution fail immediately with an empty unsolvable set (so the
cycle-report callback is not invoked), and `Run` executes zero suites,
leaving the environment outcome empty.  The final conjunct is the general
fact behind the empty set: in every environment, a traversal aborted by an
unknown dependency leaves the unsolvable set exactly as it found it. -/
theorem unknown_dependency_abort {σ : Type} (nm depName : String) (hne : nm ≠ depName)
    (pol : ControlCallback σ) (s : σ) (f tfuel : Nat)
    (h : ∀ st su d, (pol.OnUnknownDependency st su d).1 ≠ ControlAction.Ignore) :
    (unknownDepEnv nm depName).SolveDependencies pol (f + 1) s
      = SolveRes.failure []
          (pol.OnUnknownDependency s ((unknownDepEnv nm depName).suiteAt 0) depName).2 ∧
    (unknownDepEnv nm depName).Run pol (f + 1) tfuel s
      = RunOutcome.resolutionFailed [] EnvResult.empty ∧
    (∀ (env2 : Environment) fuel2 cur st p,
        env2.TopoVisit pol fuel2 cur st = p → p.2 = VisitRes.unknownAbort →
        p.1.unsolvable = st.unsolvable) := by
  cases hp : pol.OnUnknownDependency s ((unknownDepEnv nm depName).suiteAt 0) depName with
  | mk a s2 =>
    have ha : a ≠ ControlAction.Ignore := by
      have hh := h s ((unknownDepEnv nm depName).suiteAt 0) depName
      rw [hp] at hh
      exact hh
    simp +decide [unknownDepEnv, registerAll, Environment.RegisterSuite, Environment.new,
      mapEmplace, mapFind, Environment.AllowSuite, Environment.suiteAt, Suite.empty] at hp
    refine ⟨?_, ?_, ?_⟩
    · simp only [Environment.SolveDependencies, Environment.solveLoop,
        Environment.TopoVisit, Environment.visitDeps]
      simp +decide [unknownDepEnv, registerAll, Environment.RegisterSuite, Environment.new,
        mapEmplace, mapFind, Environment.AllowSuite, Environment.suiteAt, Suite.empty,
        hne, Ne.symm hne, hp, ha]
    · simp only [Environment.Run, Environment.SolveDependencies, Environment.solveLoop,
        Environment.TopoVisit, Environment.visitDeps]
      simp +decide [unknownDepEnv, registerAll, Environment.RegisterSuite, Environment.new,
        mapEmplace, mapFind, Environment.AllowSuite, Environment.suiteAt, Suite.empty,
        hne, Ne.symm hne, hp, ha]
    · intro env2 fuel2 cur st p hvisit hres
      exact (topo_ok_unknown_unsolvable env2 pol fuel2).1 cur st p hvisit (Or.inr hres)

/-- Witness for C5 at concrete names and a concrete always-Abort policy. -/
theorem unknown_dependency_abort_witness :
    (unknownDepEnv ("S") ("D")).SolveDependencies abortAllPol 1 ()
      = SolveRes.failure []
          (abortAllPol.OnUnknownDependency () ((unknownDepEnv ("S") ("D")).suiteAt 0) ("D")).2 ∧
    (unknownDepEnv ("S") ("D")).Run abortAllPol 1 5 ()
      = RunOutcome.resolutionFailed [] EnvResult.empty ∧
    (∀ (env2 : Environment) fuel2 cur st p,
        env2.TopoVisit abortAllPol fuel2 cur st = p →
        p.2 = VisitRes.unknownAbort → p.1.unsolvable = st.unsolvable) :=
  unknown_dependency_abort ("S") ("D") (by decide) abortAllPol () 0 5
    (fun _ _ _ h => ControlAction.noConfusion h)

/-- Witness for C4 at a concrete always-Ignore policy. -/
theorem unknown_dependency_ignore_hits_undefined_read_witness :
    (unknownDepEnv ("X") ("nothere")).SolveDependencies ignoreUnknownPol 1 ()
      = SolveRes.undef ∧
    (unknownDepEnv ("X") ("nothere")).Run ignoreUnknownPol 1 5 ()
      = RunOutcome.undef :=
  unknown_dependency_ignore_hits_undefined_read ignoreUnknownPol () 0 5
    (fun _ _ _ => rfl)

/-! ### Scheduler stepping lemmas -/

theorem ExecFunction_no_fault {σ : Type} (pol : ControlCallback σ) (f : SuiteFunction)
    (s : σ) (h : f.faults = false) :
    Suite.ExecFunction pol f s = (ExecOutcome.ok, s) := by
  simp [Suite.ExecFunction, h]

theorem TestRun_no_fault {σ : Type} (pol : ControlCallback σ) (t : Test)
    (tr0 : TestResult) (s : σ) (h : t.body.faults = false) :
    Test.Run pol t tr0 s = (true, tr0.applyAsserts t.body.asserts, s) := by
  simp [Test.Run, h]

theorem TestRun_fault_procceed {σ : Type} (pol : ControlCallback σ) (t : Test)
    (tr0 : TestResult) (s s2 : σ) (h : t.body.faults = true)
    (hpc : pol.OnException s t.m_Info = (ControlAction.Procceed, s2)) :
    Test.Run pol t tr0 s
      = (true, (tr0.applyAsserts t.body.asserts).AddResult
          { result := Result.Fail, message := "Unknown Exception was thrown." }, s2) := by
  simp [Test.Run, h, hpc]

theorem TestRun_fault_abort {σ : Type} (pol : ControlCallback σ) (t : Test)
    (tr0 : TestResult) (s s2 : σ) (h : t.body.faults = true)
    (hpc : pol.OnException s t.m_Info = (ControlAction.Abort, s2)) :
    Test.Run pol t tr0 s = (false, tr0.applyAsserts t.body.asserts, s2) := by
  simp [Test.Run, h, hpc]

theorem TestRun_fault_abortCurrent {σ : Type} (pol : ControlCallback σ) (t : Test)
    (tr0 : TestResult) (s s2 : σ) (h : t.body.faults = true)
    (hpc : pol.OnException s t.m_Info = (ControlAction.AbortCurrent, s2)) :
    Test.Run pol t tr0 s = (true, tr0.applyAsserts t.body.asserts, s2) := by
  simp [Test.Run, h, hpc]

theorem ExecFunction_fault_abort {σ : Type} (pol : ControlCallback σ) (f : SuiteFunction)
    (s s2 : σ) (h : f.faults = true)
    (hpc : pol.OnException s f.m_Info = (ControlAction.Abort, s2)) :
    Suite.ExecFunction pol f s = (ExecOutcome.stop false, s2) := by
  simp [Suite.ExecFunction, h, hpc]

theorem ExecFunction_fault_abortCurrent {σ : Type} (pol : ControlCallback σ) (f : SuiteFunction)
    (s s2 : σ) (h : f.faults = true)
    (hpc : pol.OnException s f.m_Info = (ControlAction.AbortCurrent, s2)) :
    Suite.ExecFunction pol f s = (ExecOutcome.stop true, s2) := by
  simp [Suite.ExecFunction, h, hpc]

theorem runTestAttempts_step {σ : Type} (pol : ControlCallback σ) (su : Suite) (t : Test)
    (fuel : Nat) (s s2 s3 : σ) (tr : TestResult) (rep : Bool)
    (h2 : su.m_Enter.faults = false) (h3 : su.m_Leave.faults = false)
    (htr : Test.Run pol t (TestResult.fresh t) s = (true, tr, s2))
    (hte1 : pol.OnTestEnd s2 tr = (rep, s3)) :
    Suite.runTestAttempts pol su t (fuel + 1) s
      = (if rep then Suite.runTestAttempts pol su t fuel s3
         else some (TestLoopRes.done tr, s3)) := by
  simp [Suite.runTestAttempts, ExecFunction_no_fault pol su.m_Enter s h2, htr,
    ExecFunction_no_fault pol su.m_Leave s2 h3, hte1]

theorem runTests_nil_unfold {σ : Type} (pol : ControlCallback σ) (su : Suite)
    (fuel : Nat) (sr : SuiteResult) (s : σ) (h4 : su.m_Exit.faults = false) :
    Suite.runTests pol su fuel [] sr s = some (true, sr, s) := by
  simp [Suite.runTests, ExecFunction_no_fault pol su.m_Exit s h4]

theorem runTests_cons_done {σ : Type} (pol : ControlCallback σ) (su : Suite) (t : Test)
    (rest : List Test) (fuel : Nat) (sr : SuiteResult) (s s1 : σ) (tr : TestResult)
    (hat : Suite.runTestAttempts pol su t fuel s = some (TestLoopRes.done tr, s1)) :
    Suite.runTests pol su fuel (t :: rest) sr s
      = Suite.runTests pol su fuel rest (sr.AddResult tr) s1 := by
  simp [Suite.runTests, hat]

theorem SuiteRun_init_ok {σ : Type} (pol : ControlCallback σ) (fuel : Nat) (su : Suite)
    (s : σ) (h1 : su.m_Init.faults = false) :
    Suite.Run pol fuel su s
      = Suite.runTests pol su fuel su.m_Tests (SuiteResult.fresh su.m_Info.name) s := by
  simp [Suite.Run, ExecFunction_no_fault pol su.m_Init s h1]

/-- C8: a test body that faults, under a policy whose exception decision is
Procceed, yields a test outcome holding the body's recorded assertions plus
exactly one synthetic Fail assertion with the fixed message, `Test::Run`
reports success (true) to its caller, and the suite continues with its next
test: with tests `[t, u]` the suite outcome records both outcomes and
`Suite::Run` returns true. -/
theorem fault_procceed_synthetic_fail {σ : Type} (pol : ControlCallback σ)
    (hex : ∀ st i, (pol.OnException st i).1 = ControlAction.Procceed)
    (hte : ∀ st tr2, (pol.OnTestEnd st tr2).1 = false)
    (t u : Test) (ht : t.body.faults = true) (hu : u.body.faults = false)
    (su : Suite) (htests : su.m_Tests = [t, u])
    (h1 : su.m_Init.faults = false) (h2 : su.m_Enter.faults = false)
    (h3 : su.m_Leave.faults = false) (h4 : su.m_Exit.faults = false)
    (s : σ) (fuel : Nat) :
    (Test.Run pol t (TestResult.fresh t) s).1 = true ∧
    (Test.Run pol t (TestResult.fresh t) s).2.1
      = ((TestResult.fresh t).applyAsserts t.body.asserts).AddResult
          { result := Result.Fail, message := "Unknown Exception was thrown." } ∧
    (∃ sf, Suite.Run pol (fuel + 1) su s
      = some (true,
          ((SuiteResult.fresh su.m_Info.name).AddResult
              (((TestResult.fresh t).applyAsserts t.body.asserts).AddResult
                { result := Result.Fail, message := "Unknown Exception was thrown." })).AddResult
            ((TestResult.fresh u).applyAsserts u.body.asserts),
          sf)) := by
  cases hpc : pol.OnException s t.m_Info with
  | mk a s2 =>
    have ha : a = ControlAction.Procceed := by
      have hh := hex s t.m_Info
      rw [hpc] at hh
      exact hh
    subst ha
    have htr := TestRun_fault_procceed pol t (TestResult.fresh t) s s2 ht hpc
    refine ⟨by rw [htr], by rw [htr], ?_⟩
    cases hte1 : pol.OnTestEnd s2
        (((TestResult.fresh t).applyAsserts t.body.asserts).AddResult
          { result := Result.Fail, message := "Unknown Exception was thrown." }) with
    | mk rep1 s3 =>
      have hr1 : rep1 = false := by
        have hh := hte s2 (((TestResult.fresh t).applyAsserts t.body.asserts).AddResult
          { result := Result.Fail, message := "Unknown Exception was thrown." })
        rw [hte1] at hh
        exact hh
      subst hr1
      have hat1 := runTestAttempts_step pol su t fuel s s2 s3 _ false h2 h3 htr hte1
      rw [if_neg (by simp)] at hat1
      have htru := TestRun_no_fault pol u (TestResult.fresh u) s3 hu
      cases hte2 : pol.OnTestEnd s3 ((TestResult.fresh u).applyAsserts u.body.asserts) with
      | mk rep2 s4 =>
        have hr2 : rep2 = false := by
          have hh := hte s3 ((TestResult.fresh u).applyAsserts u.body.asserts)
          rw [hte2] at hh
          exact hh
        subst hr2
        have hat2 := runTestAttempts_step pol su u fuel s3 s3 s4 _ false h2 h3 htru hte2
        rw [if_neg (by simp)] at hat2
        refine ⟨s4, ?_⟩
        rw [SuiteRun_init_ok pol (fuel + 1) su s h1, htests,
          runTests_cons_done pol su t [u] (fuel + 1) _ s s3 _ hat1,
          runTests_cons_done pol su u [] (fuel + 1) _ s3 s4 _ hat2,
          runTests_nil_unfold pol su (fuel + 1) _ s4 h4]

/-- C7: under a policy whose `OnTestEnd` counts its invocations and answers
true exactly twice for the test (then false), the repeat-until-done loop runs
the test body three times — the final policy counter 3 counts one `OnTestEnd`
call per attempt — each attempt starting from a fresh empty test result (the
loop rebuilds `TestResult(*it)` every iteration), and exactly one test
outcome, that of the final attempt, is appended to the suite outcome. -/
theorem repeat_until_done_three_attempts (pol : ControlCallback Nat)
    (hte : ∀ n tr2, pol.OnTestEnd n tr2 = (decide (n < 2), n + 1))
    (t : Test) (htb : t.body.faults = false)
    (su : Suite) (htests : su.m_Tests = [t])
    (h1 : su.m_Init.faults = false) (h2 : su.m_Enter.faults = false)
    (h3 : su.m_Leave.faults = false) (h4 : su.m_Exit.faults = false)
    (fuel : Nat) :
    Suite.runTestAttempts pol su t (fuel + 3) 0
      = some (TestLoopRes.done ((TestResult.fresh t).applyAsserts t.body.asserts), 3) ∧
    Suite.Run pol (fuel + 3) su 0
      = some (true, (SuiteResult.fresh su.m_Info.name).AddResult
          ((TestResult.fresh t).applyAsserts t.body.asserts), 3) := by
  have htr : ∀ n, Test.Run pol t (TestResult.fresh t) n
      = (true, (TestResult.fresh t).applyAsserts t.body.asserts, n) :=
    fun n => TestRun_no_fault pol t _ n htb
  have hte0 : pol.OnTestEnd 0 ((TestResult.fresh t).applyAsserts t.body.asserts)
      = (true, 1) := (hte 0 _).trans rfl
  have hte1 : pol.OnTestEnd 1 ((TestResult.fresh t).applyAsserts t.body.asserts)
      = (true, 2) := (hte 1 _).trans rfl
  have hte2 : pol.OnTestEnd 2 ((TestResult.fresh t).applyAsserts t.body.asserts)
      = (false, 3) := (hte 2 _).trans rfl
  have ha2 : Suite.runTestAttempts pol su t (fuel + 1) 2
      = some (TestLoopRes.done ((TestResult.fresh t).applyAsserts t.body.asserts), 3) := by
    have h := runTestAttempts_step pol su t fuel 2 2 3 _ false h2 h3 (htr 2) hte2
    simpa using h
  have ha1 : Suite.runTestAttempts pol su t (fuel + 2) 1
      = some (TestLoopRes.done ((TestResult.fresh t).applyAsserts t.body.asserts), 3) := by
    have h := runTestAttempts_step pol su t (fuel + 1) 1 1 2 _ true h2 h3 (htr 1) hte1
    have h2a : Suite.runTestAttempts pol su t (fuel + 2) 1
        = Suite.runTestAttempts pol su t (fuel + 1) 2 := by simpa using h
    exact h2a.trans ha2
  have ha0 : Suite.runTestAttempts pol su t (fuel + 3) 0
      = some (TestLoopRes.done ((TestResult.fresh t).applyAsserts t.body.asserts), 3) := by
    have h := runTestAttempts_step pol su t (fuel + 2) 0 0 1 _ true h2 h3 (htr 0) hte0
    have h2a : Suite.runTestAttempts pol su t (fuel + 3) 0
        = Suite.runTestAttempts pol su t (fuel + 2) 1 := by simpa using h
    exact h2a.trans ha1
  refine ⟨ha0, ?_⟩
  rw [SuiteRun_init_ok pol (fuel + 3) su 0 h1, htests,
    runTests_cons_done pol su t [] (fuel + 3) _ 0 3 _ ha0,
    runTests_nil_unfold pol su (fuel + 3) _ 3 h4]

/-- A concrete faulting test recording one passing assertion first. -/
def testFaulting : Test :=
{ m_Info := { name := "tf", file := "", line := 0 },
  body := { asserts := [(true, "a1")], faults := true } }

/-- A concrete non-faulting test recording one passing assertion. -/
def testPassing : Test :=
{ m_Info := { name := "tp", file := "", line := 0 },
  body := { asserts := [(true, "a2")], faults := false } }

/-- A concrete suite owning the faulting test then the passing test. -/
def suitePair : Suite :=
{ Suite.empty with m_Info := { name := "S8", file := "", line := 0 },
                   m_Tests := [testFaulting, testPassing] }

/-- A concrete suite owning only the passing test. -/
def suiteSingle : Suite :=
{ Suite.empty with m_Info := { name := "S7", file := "", line := 0 },
                   m_Tests := [testPassing] }

/-- A concrete policy whose exception decision is Procceed and which never
repeats a test. -/
def procceedPol : ControlCallback Unit :=
{ abortAllPol with OnException := fun s _ => (ControlAction.Procceed, s) }

/-- A concrete policy counting `OnTestEnd` calls and asking for a repeat on
the first two. -/
def countingPol : ControlCallback Nat :=
{ OnTestEnd := fun n _ => (decide (n < 2), n + 1),
  OnException := fun s _ => (ControlAction.Abort, s),
  OnDependencyFail := fun s _ _ _ => (ControlAction.Abort, s),
  OnUnknownDependency := fun s _ _ => (ControlAction.Abort, s) }

/-- Witness for C8 at the concrete pair suite and Procceed policy. -/
theorem fault_procceed_synthetic_fail_witness :
    (Test.Run procceedPol testFaulting (TestResult.fresh testFaulting) ()).1 = true ∧
    (Test.Run procceedPol testFaulting (TestResult.fresh testFaulting) ()).2.1
      = ((TestResult.fresh testFaulting).applyAsserts testFaulting.body.asserts).AddResult
          { result := Result.Fail, message := "Unknown Exception was thrown." } ∧
    (∃ sf, Suite.Run procceedPol 1 suitePair ()
      = some (true,
          ((SuiteResult.fresh suitePair.m_Info.name).AddResult
              (((TestResult.fresh testFaulting).applyAsserts testFaulting.body.asserts).AddResult
                { result := Result.Fail, message := "Unknown Exception was thrown." })).AddResult
            ((TestResult.fresh testPassing).applyAsserts testPassing.body.asserts),
          sf)) :=
  fault_procceed_synthetic_fail procceedPol (fun _ _ => rfl) (fun _ _ => rfl)
    testFaulting testPassing rfl rfl suitePair rfl rfl rfl rfl rfl () 0

/-- Witness for C7 at the concrete single-test suite and counting policy. -/
theorem repeat_until_done_three_attempts_witness :
    Suite.runTestAttempts countingPol suiteSingle testPassing 3 0
      = some (TestLoopRes.done
          ((TestResult.fresh testPassing).applyAsserts testPassing.body.asserts), 3) ∧
    Suite.Run countingPol 3 suiteSingle 0
      = some (true, (SuiteResult.fresh suiteSingle.m_Info.name).AddResult
          ((TestResult.fresh testPassing).applyAsserts testPassing.body.asserts), 3) :=
  repeat_until_done_three_attempts countingPol (fun _ _ => rfl) testPassing rfl
    suiteSingle rfl rfl rfl rfl rfl 0

/-- Scope of abort decisions inside revision two's `RunSuites`.  First
conjunct: every
`RunSuites` iteration records the current suite outcome into the environment
outcome, and a false procceed flag — produced exactly by abort-entire-run
decisions — makes the loop return at once, so no later suite in the resolved
order begins execution, while a true flag lets the loop move to the next
suite.  Remaining conjuncts: an Abort decision on a faulting init fixture
makes `Suite::Run` return false (abort the run) with no test executed; an
AbortCurrent decision there makes it return true (only the current suite
stops, the scheduler proceeds); an Abort decision on a faulting test body
also propagates as false out of `Suite::Run`, while an AbortCurrent decision
there stops only the current test — `Test::Run` reports true and the suite
goes on. -/
theorem abort_decision_scopes {σ : Type} (env : Environment) (pol : ControlCallback σ)
    (tfuel : Nat) :
    (∀ i rest rs pr sr rs1, env.processSuite pol tfuel rs i = some (pr, sr, rs1) →
        rs1.er = rs.er.AddResult sr ∧
        (pr = false → env.runSuitesLoop pol tfuel (i :: rest) rs = some (false, rs1)) ∧
        (pr = true → env.runSuitesLoop pol tfuel (i :: rest) rs
            = env.runSuitesLoop pol tfuel rest rs1)) ∧
    (∀ (su : Suite) (s s2 : σ), su.m_Init.faults = true →
        pol.OnException s su.m_Init.m_Info = (ControlAction.Abort, s2) →
        Suite.Run pol tfuel su s = some (false, SuiteResult.fresh su.m_Info.name, s2)) ∧
    (∀ (su : Suite) (s s2 : σ), su.m_Init.faults = true →
        pol.OnException s su.m_Init.m_Info = (ControlAction.AbortCurrent, s2) →
        Suite.Run pol tfuel su s = some (true, SuiteResult.fresh su.m_Info.name, s2)) ∧
    (∀ (su : Suite) (t : Test) (rest2 : List Test) (s s2 : σ) (tf : Nat),
        su.m_Tests = t :: rest2 → su.m_Init.faults = false →
        su.m_Enter.faults = false → t.body.faults = true →
        pol.OnException s t.m_Info = (ControlAction.Abort, s2) →
        Suite.Run pol (tf + 1) su s
          = some (false, SuiteResult.fresh su.m_Info.name, s2)) ∧
    (∀ (t : Test) (tr0 : TestResult) (s s2 : σ), t.body.faults = true →
        pol.OnException s t.m_Info = (ControlAction.AbortCurrent, s2) →
        Test.Run pol t tr0 s = (true, tr0.applyAsserts t.body.asserts, s2)) := by
  refine ⟨?_, ?_, ?_, ?_, ?_⟩
  · intro i rest rs pr sr rs1 hp
    have her : rs1.er = rs.er.AddResult sr := by
      revert hp
      simp only [Environment.processSuite]
      cases hcd : env.CheckDependencies pol (env.suiteAt i) rs.er rs.rc rs.ps with
      | mk c s1 =>
        cases c with
        | ok =>
          cases hrun : Suite.Run pol tfuel (env.suiteAt i) s1 with
          | none =>
            intro hp
            simp [hrun] at hp
          | some v =>
            obtain ⟨pr2, sr2, s3⟩ := v
            intro hp
            simp only [hrun, Option.some.injEq, Prod.mk.injEq] at hp
            obtain ⟨ha1, ha2, ha3⟩ := hp
            rw [← ha3, ← ha2]
            rfl
        | stop p =>
          intro hp
          simp only [Option.some.injEq, Prod.mk.injEq] at hp
          obtain ⟨ha1, ha2, ha3⟩ := hp
          rw [← ha3, ← ha2]
          rfl
    refine ⟨her, ?_, ?_⟩
    · intro hpr
      subst hpr
      simp [Environment.runSuitesLoop, hp]
    · intro hpr
      subst hpr
      simp [Environment.runSuitesLoop, hp]
  · intro su s s2 hf hpc
    simp [Suite.Run, ExecFunction_fault_abort pol su.m_Init s s2 hf hpc]
  · intro su s s2 hf hpc
    simp [Suite.Run, ExecFunction_fault_abortCurrent pol su.m_Init s s2 hf hpc]
  · intro su t rest2 s s2 tf htests h1 h2 htb hpc
    have hat : Suite.runTestAttempts pol su t (tf + 1) s
        = some (TestLoopRes.stop false, s2) := by
      simp [Suite.runTestAttempts, ExecFunction_no_fault pol su.m_Enter s h2,
        TestRun_fault_abort pol t (TestResult.fresh t) s s2 htb hpc]
    rw [SuiteRun_init_ok pol (tf + 1) su s h1, htests]
    simp [Suite.runTests, hat]
  · intro t tr0 s s2 htb hpc
    exact TestRun_fault_abortCurrent pol t tr0 s s2 htb hpc

/-- A concrete policy answering AbortCurrent to every exception. -/
def abortCurrentPol : ControlCallback Unit :=
{ abortAllPol with OnException := fun s _ => (ControlAction.AbortCurrent, s) }

/-- A concrete suite whose init fixture faults. -/
def suiteInitFaulting : Suite :=
{ Suite.empty with
  m_Info := { name := "SA", file := "", line := 0 },
  m_Init := { faults := true, m_Info := { name := "suite.init", file := "", line := 0 } } }

/-- A concrete suite with no tests and no faulting fixture. -/
def suiteClean : Suite :=
{ Suite.empty with m_Info := { name := "SB", file := "", line := 0 } }

/-- A concrete suite owning only the faulting test. -/
def suiteTestAbort : Suite :=
{ Suite.empty with m_Info := { name := "SC", file := "", line := 0 },
                   m_Tests := [testFaulting] }

/-- Environment holding only the init-faulting suite. -/
def envAbort : Environment := registerAll [suiteInitFaulting]

/-- Environment holding the clean suite then the init-faulting suite. -/
def envTwo : Environment := registerAll [suiteClean, suiteInitFaulting]

/-- Initial scheduler state for a one-suite environment. -/
def rs0A : RunState Unit := { er := EnvResult.empty, rc := [0], ps := () }

/-- Scheduler state after recording the init-faulting suite's empty outcome. -/
def rs1A : RunState Unit :=
{ er := EnvResult.empty.AddResult (SuiteResult.fresh ("SA")), rc := [0], ps := () }

/-- Initial scheduler state for a two-suite environment. -/
def rsT0 : RunState Unit := { er := EnvResult.empty, rc := [0, 0], ps := () }

/-- Scheduler state after recording the clean suite's outcome. -/
def rsT1 : RunState Unit :=
{ er := EnvResult.empty.AddResult (SuiteResult.fresh ("SB")), rc := [0, 0], ps := () }

/-- Concrete instances of `abort_decision_scopes`: the abort iteration
records its outcome and stops the loop with suite 7 never processed; a
proceeding iteration moves to the next suite; Abort on the init fixture makes
`Suite::Run` return false, AbortCurrent makes it return true; Abort on a test
body propagates as false. -/
theorem abort_decision_scopes_witness :
    rs1A.er = rs0A.er.AddResult (SuiteResult.fresh ("SA")) ∧
    envAbort.runSuitesLoop abortAllPol 5 [0, 7] rs0A = some (false, rs1A) ∧
    envTwo.runSuitesLoop abortAllPol 5 [0, 1] rsT0
      = envTwo.runSuitesLoop abortAllPol 5 [1] rsT1 ∧
    Suite.Run abortAllPol 5 suiteInitFaulting () = some (false, SuiteResult.fresh ("SA"), ()) ∧
    Suite.Run abortCurrentPol 5 suiteInitFaulting ()
      = some (true, SuiteResult.fresh ("SA"), ()) ∧
    Suite.Run abortAllPol 1 suiteTestAbort () = some (false, SuiteResult.fresh ("SC"), ()) ∧
    Test.Run abortCurrentPol testFaulting (TestResult.fresh testFaulting) ()
      = (true, (TestResult.fresh testFaulting).applyAsserts testFaulting.body.asserts, ()) :=
  ⟨((abort_decision_scopes envAbort abortAllPol 5).1 0 [7] rs0A false
      (SuiteResult.fresh ("SA")) rs1A rfl).1,
   ((abort_decision_scopes envAbort abortAllPol 5).1 0 [7] rs0A false
      (SuiteResult.fresh ("SA")) rs1A rfl).2.1 rfl,
   ((abort_decision_scopes envTwo abortAllPol 5).1 0 [1] rsT0 true
      (SuiteResult.fresh ("SB")) rsT1 rfl).2.2 rfl,
   (abort_decision_scopes envAbort abortAllPol 5).2.1 suiteInitFaulting () () rfl rfl,
   (abort_decision_scopes envAbort abortCurrentPol 5).2.2.1 suiteInitFaulting () () rfl rfl,
   (abort_decision_scopes envAbort abortAllPol 0).2.2.2.1 suiteTestAbort testFaulting [] () () 0
     rfl rfl rfl rfl rfl,
   (abort_decision_scopes envAbort abortCurrentPol 5).2.2.2.2 testFaulting
     (TestResult.fresh testFaulting) () () rfl rfl⟩

/-! ### The scheduler of revision one

Revision one's `Suite::Run`, `Suite::ExecFunction` and `Test::Run` are
structurally identical to revision two's, so the definitions above are
shared.  The scheduler differs: `EnvironmentResult` of revision one keeps no
aggregated total and its `AddResult` is a plain `push_back`, dependency
outcomes are looked up by suite name (there is no `resultConnector`),
`SuiteResult::SetTotalResult` clears the recorded test outcomes, and — the
decisive difference — `RunSuites` discards `Suite::Run`'s boolean. -/

/-- Revision one `SuiteResult::SetTotalResult`: the recorded test outcomes
are cleared before the total is overwritten. -/
def Rev1.SetTotalResult (sr : SuiteResult) (r : Result) : SuiteResult :=
{ sr with results := [], total := r }

/-- Revision one `EnvironmentResult::GetResult(name)`: the first recorded
suite outcome whose suite carries the name; when none is recorded, the
static `NULL_Result` — a fresh outcome with total Success — is returned. -/
def Rev1.getResultByName (results : List SuiteResult) (nm : String) : SuiteResult :=
(results.find? (fun r => r.suiteName == nm)).getD (SuiteResult.fresh (""))

/-- The loop of revision one `Environment::CheckDependencies` over the
declared dependency names: each name is resolved by name against the
already-recorded suite outcomes, and a non-Success outcome is surfaced to
`OnDependencyFail`; Ignore skips the edge, AbortCurrent stops the current
suite with procceed true, anything else with procceed false. -/
def Rev1.checkDepsLoop (pol : ControlCallback σ) (su : Suite)
    (results : List SuiteResult) : List String → σ → CheckRes × σ
| [], s => (CheckRes.ok, s)
| depName :: rest, s =>
  let suiteRes := Rev1.getResultByName results depName
  if suiteRes.total ≠ Result.Success then
    let (action, s1) := pol.OnDependencyFail s su suiteRes.suiteName suiteRes
    if action = ControlAction.Ignore then Rev1.checkDepsLoop pol su results rest s1
    else if action = ControlAction.AbortCurrent then (CheckRes.stop true, s1)
    else (CheckRes.stop false, s1)
  else Rev1.checkDepsLoop pol su results rest s

/-- Revision one `Environment::CheckDependencies`. -/
def Rev1.CheckDependencies (pol : ControlCallback σ) (su : Suite)
    (results : List SuiteResult) (s : σ) : CheckRes × σ :=
Rev1.checkDepsLoop pol su results su.m_Dependencies s

/-- The loop of revision one `Environment::RunSuites`.  When the dependency
check passes, the source reads `bool succe = (*it)->Run(suiteResult);
if(!abort) procceed = false;` — the condition tests the address of the C
library function `abort`, which is never null, so the branch never executes:
`succe` is discarded and the procceed flag keeps its initial true, and the
loop continues with the next suite whatever `Suite::Run` returned.  Only the
dependency-check branch can clear the flag (through the out-parameter) and
end the loop early. -/
def Rev1.runSuitesLoop (env : Environment) (pol : ControlCallback σ) (tfuel : Nat) :
    List Nat → List SuiteResult → σ → Option (Bool × List SuiteResult × σ)
| [], results, s => some (true, results, s)
| i :: rest, results, s =>
  let su := env.suiteAt i
  match Rev1.CheckDependencies pol su results s with
  | (CheckRes.ok, s1) =>
    match Suite.Run pol tfuel su s1 with
    | none => none
    | some (succe, sr, s2) =>
      Rev1.runSuitesLoop env pol tfuel rest (results ++ [sr]) s2
  | (CheckRes.stop p, s1) =>
    let sr := Rev1.SetTotalResult (SuiteResult.fresh su.m_Info.name) Result.Unknown
    if p then Rev1.runSuitesLoop env pol tfuel rest (results ++ [sr]) s1
    else some (false, results ++ [sr], s1)

/-- Revision one `Environment::RunSuites`, starting from no recorded
outcomes. -/
def Rev1.RunSuites (env : Environment) (pol : ControlCallback σ) (tfuel : Nat)
    (order : List Nat) (s : σ) : Option (Bool × List SuiteResult × σ) :=
Rev1.runSuitesLoop env pol tfuel order [] s

/-- C6: the claimed stop after an abort-entire-run decision fails in revision
one.  Under a policy answering Abort to every exception, the init-faulting
suite signals abort-entire-run — `Suite::Run` returns false (first
conjunct) — yet revision one's `RunSuites`, whose line `if(!abort)
procceed = false;` tests the never-null address of the C library function
`abort` and discards `Suite::Run`'s result, still begins and records the
later clean suite and reports overall true (second conjunct), while revision
two's `RunSuites` on the same input stops immediately after recording the
aborting suite's outcome, as the claim states (third conjunct). -/
theorem rev1_abort_does_not_stop_later_suites :
    Suite.Run abortAllPol 5 suiteInitFaulting () = some (false, SuiteResult.fresh ("SA"), ()) ∧
    Rev1.RunSuites envTwo abortAllPol 5 [1, 0] ()
      = some (true, [SuiteResult.fresh ("SA"), SuiteResult.fresh ("SB")], ()) ∧
    envTwo.RunSuites abortAllPol 5 [1, 0] ()
      = some (false, { er := EnvResult.empty.AddResult (SuiteResult.fresh ("SA")),
                       rc := [0, 0], ps := () }) :=
  ⟨rfl, rfl, rfl⟩

/-! ### Topological-order infrastructure for the resolver -/

theorem getD_set_self {α : Type} (l : List α) (i : Nat) (a d : α) (h : i < l.length) :
    (l.set i a).getD i d = a := by
  simp [List.getD_eq_getElem?_getD, List.getElem?_set_self', List.getElem?_eq_getElem h]

theorem getD_set_ne {α : Type} (l : List α) (i j : Nat) (a d : α) (h : i ≠ j) :
    (l.set i a).getD j d = l.getD j d := by
  simp [List.getD_eq_getElem?_getD, List.getElem?_set_ne h]

theorem getD_replicate_false (n i : Nat) : (List.replicate n false).getD i false = false := by
  simp only [List.getD_eq_getElem?_getD, List.getElem?_replicate]
  by_cases h : i < n <;> simp [h]

theorem get?_prefix {α : Type} {l1 l2 : List α} (h : l1 <+: l2) {p : Nat}
    (hp : p < l1.length) : l2.get? p = l1.get? p := by
  obtain ⟨t, rfl⟩ := h
  rw [List.get?_eq_getElem?, List.get?_eq_getElem?, List.getElem?_append_left hp]

/-- The dependency indices of the suite at an index: its declared dependency
names that resolve through the name map. -/
def depIdxs (env : Environment) (i : Nat) : List Nat :=
(env.suiteAt i).m_Dependencies.filterMap (fun nm => mapFind env.m_SuiteMap nm)

/-- A list of suite indices is topologically sorted when, at every position,
all resolved dependency indices of the suite there occur strictly earlier. -/
def TopoSorted (env : Environment) (l : List Nat) : Prop :=
∀ p i, l.get? p = some i → ∀ j ∈ depIdxs env i, j ∈ l.take p

/-- The invariant of the three-colour traversal state. -/
structure TopoInv {σ : Type} (env : Environment) (st : TopoState σ) : Prop where
  lenF : st.markFirst.length = env.m_Suites.length
  lenS : st.markSecond.length = env.m_Suites.length
  first_mem : ∀ i, st.markFirst.getD i false = true ↔ i ∈ st.result
  nodup : st.result.Nodup
  sorted : TopoSorted env st.result
  second_not_first : ∀ i, st.markSecond.getD i false = true →
    st.markFirst.getD i false = false
  bound : ∀ j ∈ st.result, j < env.m_Suites.length

/-- The invariant holds for the initial traversal state. -/
theorem topoInv_init {σ : Type} (env : Environment) (s : σ) :
    TopoInv env ({ result := [], markFirst := List.replicate env.m_Suites.length false,
                   markSecond := List.replicate env.m_Suites.length false,
                   unsolvable := [], ps := s } : TopoState σ) := by
  refine ⟨by simp, by simp, ?_, List.nodup_nil, ?_, ?_, ?_⟩
  · intro i
    simp [getD_replicate_false]
  · intro p i hp
    simp at hp
  · intro i hsec
    rw [getD_replicate_false] at hsec
    exact Bool.noConfusion hsec
  · intro j hj
    simp at hj

/-- Putting an unfinished node on the stack preserves the invariant. -/
theorem topoInv_set_second {σ : Type} (env : Environment) (st : TopoState σ) (cur : Nat)
    (hinv : TopoInv env st) (hcur : cur < env.m_Suites.length)
    (hmf : st.markFirst.getD cur false = false) :
    TopoInv env ({ st with markSecond := st.markSecond.set cur true }) := by
  refine ⟨hinv.lenF, by simpa using hinv.lenS, hinv.first_mem, hinv.nodup, hinv.sorted,
    ?_, hinv.bound⟩
  intro i hsec
  by_cases he : cur = i
  · subst he
    exact hmf
  · rw [getD_set_ne _ _ _ _ _ he] at hsec
    exact hinv.second_not_first i hsec

/-- What a successful visit guarantees about the state transition: the
invariant is preserved, the order only grows at the back, finished marks only
grow, the on-stack set is restored, and on-stack nodes keep their finished
mark unchanged. -/
def OkSpec {σ : Type} (env : Environment) (st st2 : TopoState σ) : Prop :=
  TopoInv env st2 ∧
  st.result <+: st2.result ∧
  (∀ i, st.markFirst.getD i false = true → st2.markFirst.getD i false = true) ∧
  (∀ i, st2.markSecond.getD i false = st.markSecond.getD i false) ∧
  (∀ i, st.markSecond.getD i false = true →
    st2.markFirst.getD i false = st.markFirst.getD i false)

theorem okSpec_refl {σ : Type} (env : Environment) (st : TopoState σ)
    (hinv : TopoInv env st) : OkSpec env st st :=
  ⟨hinv, List.prefix_refl _, fun _ h => h, fun _ => rfl, fun _ _ => rfl⟩

theorem okSpec_trans {σ : Type} (env : Environment) (st stm st2 : TopoState σ)
    (h1 : OkSpec env st stm) (h2 : OkSpec env stm st2) : OkSpec env st st2 := by
  refine ⟨h2.1, h1.2.1.trans h2.2.1, fun i h => h2.2.2.1 i (h1.2.2.1 i h), ?_, ?_⟩
  · intro i
    rw [h2.2.2.2.1 i, h1.2.2.2.1 i]
  · intro i h
    have hm : stm.markSecond.getD i false = true := by rw [h1.2.2.2.1 i]; exact h
    rw [h2.2.2.2.2 i hm, h1.2.2.2.2 i h]

/-- The push step at the end of a successful `TopoVisit`: finishing the
current node, taking it off the stack and appending it to the order yields a
state satisfying `OkSpec` relative to the entry state, with the current node
finished. -/
theorem topo_push_ok {σ : Type} (env : Environment) (st st2 : TopoState σ) (cur : Nat)
    (hcur : cur < env.m_Suites.length) (hinv : TopoInv env st)
    (hms : st.markSecond.getD cur false = false)
    (hmf : st.markFirst.getD cur false = false)
    (hQ : OkSpec env ({ st with markSecond := st.markSecond.set cur true }) st2)
    (hdeps : ∀ nm ∈ (env.suiteAt cur).m_Dependencies, ∀ j,
      mapFind env.m_SuiteMap nm = some j → st2.markFirst.getD j false = true) :
    OkSpec env st
      ({ st2 with markFirst := st2.markFirst.set cur true,
                  markSecond := st2.markSecond.set cur false,
                  result := st2.result ++ [cur] }) ∧
    ({ st2 with markFirst := st2.markFirst.set cur true,
                markSecond := st2.markSecond.set cur false,
                result := st2.result ++ [cur] } : TopoState σ).markFirst.getD cur false
      = true := by
  obtain ⟨hinv2, hpre, hmono, hptw, hprot⟩ := hQ
  have hlenS : cur < st.markSecond.length := by rw [hinv.lenS]; exact hcur
  have hlenF2 : cur < st2.markFirst.length := by rw [hinv2.lenF]; exact hcur
  have hlenS2 : cur < st2.markSecond.length := by rw [hinv2.lenS]; exact hcur
  have hs1cur : (st.markSecond.set cur true).getD cur false = true :=
    getD_set_self _ _ _ _ hlenS
  have hfcur : st2.markFirst.getD cur false = false := by
    have h := hprot cur hs1cur
    rw [h]
    exact hmf
  have hnotin : cur ∉ st2.result := by
    intro hmem
    have := (hinv2.first_mem cur).mpr hmem
    rw [hfcur] at this
    exact Bool.noConfusion this
  have hcurTrue : (st2.markFirst.set cur true).getD cur false = true :=
    getD_set_self _ _ _ _ hlenF2
  have hs1of : ∀ i, cur ≠ i → st.markSecond.getD i false = true →
      (st.markSecond.set cur true).getD i false = true := by
    intro i he hsi
    rw [getD_set_ne _ _ _ _ _ he]
    exact hsi
  have hinvP : TopoInv env
      ({ st2 with markFirst := st2.markFirst.set cur true,
                  markSecond := st2.markSecond.set cur false,
                  result := st2.result ++ [cur] }) := by
    refine ⟨by simpa using hinv2.lenF, by simpa using hinv2.lenS, ?_, ?_, ?_, ?_, ?_⟩
    · intro i
      by_cases he : cur = i
      · subst he
        constructor
        · intro _
          simp
        · intro _
          exact hcurTrue
      · rw [getD_set_ne _ _ _ _ _ he]
        rw [hinv2.first_mem i]
        simp only [List.mem_append, List.mem_singleton]
        constructor
        · exact Or.inl
        · intro h
          rcases h with h | h
          · exact h
          · exact absurd h.symm he
    · exact List.Nodup.append hinv2.nodup (List.nodup_singleton cur)
        (by simpa [List.disjoint_singleton] using hnotin)
    · intro p i hp j hj
      have hplen : p < st2.result.length + 1 := by
        have := List.get?_eq_some.mp hp
        simpa [List.length_append] using this.1
      by_cases hlt : p < st2.result.length
      · have hp2 : st2.result.get? p = some i := by
          rw [← get?_prefix ⟨[cur], rfl⟩ hlt]
          exact hp
        have := hinv2.sorted p i hp2 j hj
        rwa [List.take_append_of_le_length (Nat.le_of_lt hlt)]
      · have hpe : p = st2.result.length := by omega
        subst hpe
        have hp2 : (st2.result ++ [cur]).get? st2.result.length = some cur := by
          simp [List.get?_eq_getElem?]
        rw [hp] at hp2
        injection hp2 with hicur
        subst hicur
        rw [List.take_append_of_le_length (Nat.le_refl _), List.take_length]
        rw [depIdxs, List.mem_filterMap] at hj
        obtain ⟨nm, hnm, hfind⟩ := hj
        have := hdeps nm hnm j hfind
        exact (hinv2.first_mem j).mp this
    · intro i hsec
      by_cases he : cur = i
      · subst he
        rw [getD_set_self _ _ _ _ hlenS2] at hsec
        exact Bool.noConfusion hsec
      · rw [getD_set_ne _ _ _ _ _ he] at hsec
        have hsi : st.markSecond.getD i false = true := by
          rw [hptw i, getD_set_ne _ _ _ _ _ he] at hsec
          exact hsec
        rw [getD_set_ne _ _ _ _ _ he, hprot i (hs1of i he hsi)]
        exact hinv.second_not_first i hsi
    · intro j hj
      rcases List.mem_append.mp hj with h | h
      · exact hinv2.bound j h
      · rw [List.mem_singleton] at h
        subst h
        exact hcur
  refine ⟨⟨hinvP, ?_, ?_, ?_, ?_⟩, hcurTrue⟩
  · exact hpre.trans ⟨[cur], rfl⟩
  · intro i h
    by_cases he : cur = i
    · subst he
      exact hcurTrue
    · rw [getD_set_ne _ _ _ _ _ he]
      exact hmono i h
  · intro i
    by_cases he : cur = i
    · subst he
      rw [getD_set_self _ _ _ _ hlenS2, hms]
    · rw [getD_set_ne _ _ _ _ _ he, hptw i, getD_set_ne _ _ _ _ _ he]
  · intro i h
    by_cases he : cur = i
    · subst he
      rw [hms] at h
      exact Bool.noConfusion h
    · rw [getD_set_ne _ _ _ _ _ he, hprot i (hs1of i he h)]

theorem bool_not_true {b : Bool} (h : ¬ b = true) : b = false := by
  cases b with
  | false => rfl
  | true => exact absurd rfl h

/-- The dependency loop of a visit, given the visit spec at the current
recursion depth: on success it satisfies `OkSpec` and leaves every resolved
dependency of the processed list finished. -/
theorem topo_ok_spec_deps {σ : Type} (env : Environment) (pol : ControlCallback σ)
    (hwf : ∀ nm j, mapFind env.m_SuiteMap nm = some j → j < env.m_Suites.length)
    (fuel : Nat)
    (hP : ∀ cur st st2, cur < env.m_Suites.length → TopoInv env st →
      env.TopoVisit pol fuel cur st = (st2, VisitRes.ok) →
      OkSpec env st st2 ∧ st2.markFirst.getD cur false = true) :
    ∀ l cur st st2, cur < env.m_Suites.length → TopoInv env st →
      st.markSecond.getD cur false = true →
      env.visitDeps pol (env.TopoVisit pol fuel) cur l st = (st2, VisitRes.ok) →
      OkSpec env st st2 ∧
      (∀ nm ∈ l, ∀ j, mapFind env.m_SuiteMap nm = some j →
        st2.markFirst.getD j false = true) := by
  intro l
  induction l with
  | nil =>
    intro cur st st2 hcur hinv hstk hp
    rw [visitDeps_nil_unfold] at hp
    injection hp with h1 h2
    subst h1
    refine ⟨okSpec_refl env st hinv, ?_⟩
    intro nm hnm
    exact absurd hnm (List.not_mem_nil nm)
  | cons d rest ihl =>
    intro cur st st2 hcur hinv hstk hp
    rw [visitDeps_cons_unfold] at hp
    have hmfc : st.markFirst.getD cur false = false := hinv.second_not_first cur hstk
    have hcond : ¬ (st.markFirst.getD cur false = true) := by
      rw [hmfc]
      simp
    rw [if_neg hcond] at hp
    cases hfind : mapFind env.m_SuiteMap d with
    | none =>
      simp only [hfind] at hp
      cases hpc : pol.OnUnknownDependency st.ps (env.suiteAt cur) d with
      | mk a s1 =>
        simp only [hpc] at hp
        by_cases hig : a = ControlAction.Ignore
        · rw [if_pos hig] at hp
          injection hp with h1 h2
          exact VisitRes.noConfusion h2
        · rw [if_neg hig] at hp
          injection hp with h1 h2
          exact VisitRes.noConfusion h2
    | some depIdx =>
      simp only [hfind] at hp
      cases hv : env.TopoVisit pol fuel depIdx st with
      | mk stm r =>
        simp only [hv] at hp
        cases r with
        | ok =>
          have hPd := hP depIdx st stm (hwf d depIdx hfind) hinv hv
          have hstkm : stm.markSecond.getD cur false = true := by
            rw [hPd.1.2.2.2.1 cur]
            exact hstk
          have hrest := ihl cur stm st2 hcur hPd.1.1 hstkm hp
          refine ⟨okSpec_trans env st stm st2 hPd.1 hrest.1, ?_⟩
          intro nm hnm j hfj
          rcases List.mem_cons.mp hnm with he | hmem
          · subst he
            rw [hfind] at hfj
            injection hfj with hje
            rw [← hje]
            exact hrest.1.2.2.1 depIdx hPd.2
          · exact hrest.2 nm hmem j hfj
        | cycle =>
          injection hp with h1 h2
          exact VisitRes.noConfusion h2
        | unknownAbort =>
          injection hp with h1 h2
          exact VisitRes.noConfusion h2
        | undef =>
          injection hp with h1 h2
          exact VisitRes.noConfusion h2
        | noFuel =>
          injection hp with h1 h2
          exact VisitRes.noConfusion h2

/-- A successful `TopoVisit` satisfies `OkSpec` and finishes the visited
node. -/
theorem topo_ok_visit {σ : Type} (env : Environment) (pol : ControlCallback σ)
    (hwf : ∀ nm j, mapFind env.m_SuiteMap nm = some j → j < env.m_Suites.length) :
    ∀ fuel cur st st2, cur < env.m_Suites.length → TopoInv env st →
      env.TopoVisit pol fuel cur st = (st2, VisitRes.ok) →
      OkSpec env st st2 ∧ st2.markFirst.getD cur false = true := by
  intro fuel
  induction fuel with
  | zero =>
    intro cur st st2 hcur hinv hp
    rw [TopoVisit_zero_unfold] at hp
    injection hp with h1 h2
    exact VisitRes.noConfusion h2
  | succ fuel ih =>
    intro cur st st2 hcur hinv hp
    rw [TopoVisit_succ_unfold] at hp
    by_cases hms : st.markSecond.getD cur false = true
    · rw [if_pos hms] at hp
      injection hp with h1 h2
      exact VisitRes.noConfusion h2
    · rw [if_neg hms] at hp
      by_cases hmf : st.markFirst.getD cur false = true
      · rw [if_pos hmf] at hp
        injection hp with h1 h2
        subst h1
        exact ⟨okSpec_refl env _ hinv, hmf⟩
      · rw [if_neg hmf] at hp
        have hms2 : st.markSecond.getD cur false = false := bool_not_true hms
        have hmf2 : st.markFirst.getD cur false = false := bool_not_true hmf
        have hlenS : cur < st.markSecond.length := by rw [hinv.lenS]; exact hcur
        cases hv : env.visitDeps pol (env.TopoVisit pol fuel) cur
            (env.suiteAt cur).m_Dependencies
            { st with markSecond := st.markSecond.set cur true } with
        | mk stv r =>
          simp only [hv] at hp
          cases r with
          | ok =>
            injection hp with h1 h2
            subst h1
            have hinv1 := topoInv_set_second env st cur hinv hcur hmf2
            have hstk1 : ({ st with markSecond := st.markSecond.set cur true }
                : TopoState σ).markSecond.getD cur false = true :=
              getD_set_self _ _ _ _ hlenS
            have hQ := topo_ok_spec_deps env pol hwf fuel ih
              (env.suiteAt cur).m_Dependencies cur _ stv hcur hinv1 hstk1 hv
            exact topo_push_ok env st stv cur hcur hinv hms2 hmf2 hQ.1 hQ.2
          | cycle =>
            injection hp with h1 h2
            exact VisitRes.noConfusion h2
          | unknownAbort =>
            injection hp with h1 h2
            exact VisitRes.noConfusion h2
          | undef =>
            injection hp with h1 h2
            exact VisitRes.noConfusion h2
          | noFuel =>
            injection hp with h1 h2
            exact VisitRes.noConfusion h2

theorem solveLoop_zero_unfold {σ : Type} (env : Environment) (pol : ControlCallback σ)
    (fuel i : Nat) (st : TopoState σ) :
    env.solveLoop pol fuel 0 i st = SolveRes.success st.result st.ps := rfl

theorem solveLoop_succ_unfold {σ : Type} (env : Environment) (pol : ControlCallback σ)
    (fuel rem i : Nat) (st : TopoState σ) :
    env.solveLoop pol fuel (rem + 1) i st
      = (if ¬ st.markFirst.getD i false ∧ env.AllowSuite (env.suiteAt i) then
           match env.TopoVisit pol fuel i st with
           | (st1, VisitRes.ok) => env.solveLoop pol fuel rem (i + 1) st1
           | (st1, VisitRes.cycle) => SolveRes.failure st1.unsolvable st1.ps
           | (st1, VisitRes.unknownAbort) => SolveRes.failure st1.unsolvable st1.ps
           | (_, VisitRes.undef) => SolveRes.undef
           | (_, VisitRes.noFuel) => SolveRes.noFuel
         else env.solveLoop pol fuel rem (i + 1) st) := rfl

/-- A successful root loop, started from an invariant state, yields a
topologically sorted, duplicate-free order of valid suite indices. -/
theorem solveLoop_sound {σ : Type} (env : Environment) (pol : ControlCallback σ)
    (fuel : Nat)
    (hwf : ∀ nm j, mapFind env.m_SuiteMap nm = some j → j < env.m_Suites.length) :
    ∀ rem i st order ps, i + rem = env.m_Suites.length → TopoInv env st →
      env.solveLoop pol fuel rem i st = SolveRes.success order ps →
      TopoSorted env order ∧ order.Nodup ∧
      (∀ j ∈ order, j < env.m_Suites.length) := by
  intro rem
  induction rem with
  | zero =>
    intro i st order ps hsum hinv hp
    rw [solveLoop_zero_unfold] at hp
    injection hp with h1 h2
    subst h1
    exact ⟨hinv.sorted, hinv.nodup, hinv.bound⟩
  | succ rem ih =>
    intro i st order ps hsum hinv hp
    rw [solveLoop_succ_unfold] at hp
    by_cases hc : ¬ st.markFirst.getD i false ∧ env.AllowSuite (env.suiteAt i)
    · rw [if_pos hc] at hp
      cases hv : env.TopoVisit pol fuel i st with
      | mk st1 r =>
        simp only [hv] at hp
        cases r with
        | ok =>
          have hi : i < env.m_Suites.length := by omega
          have hok := topo_ok_visit env pol hwf fuel i st st1 hi hinv hv
          exact ih (i + 1) st1 order ps (by omega) hok.1.1 hp
        | cycle => exact SolveRes.noConfusion hp
        | unknownAbort => exact SolveRes.noConfusion hp
        | undef => exact SolveRes.noConfusion hp
        | noFuel => exact SolveRes.noConfusion hp
    · rw [if_neg hc] at hp
      exact ih (i + 1) st order ps (by omega) hinv hp

/-- A successful `SolveDependencies` yields a topologically sorted,
duplicate-free order of valid suite indices. -/
theorem solveDependencies_sound {σ : Type} (env : Environment) (pol : ControlCallback σ)
    (fuel : Nat) (s : σ) (order : List Nat) (ps : σ)
    (hwf : ∀ nm j, mapFind env.m_SuiteMap nm = some j → j < env.m_Suites.length)
    (hp : env.SolveDependencies pol fuel s = SolveRes.success order ps) :
    TopoSorted env order ∧ order.Nodup ∧
    (∀ j ∈ order, j < env.m_Suites.length) :=
  solveLoop_sound env pol fuel hwf env.m_Suites.length 0 _ order ps
    (by omega) (topoInv_init env s) hp

/-- Completeness of the dependency loop: when every listed name resolves to
a strictly lower-ranked suite, and every on-stack node has rank at least the
current one, the loop succeeds. -/
theorem topo_complete_deps {σ : Type} (env : Environment) (pol : ControlCallback σ)
    (hwf : ∀ nm j, mapFind env.m_SuiteMap nm = some j → j < env.m_Suites.length)
    (rank : Nat → Nat) (fuel : Nat)
    (hPc : ∀ cur st, cur < env.m_Suites.length → TopoInv env st →
      (∀ j2, st.markSecond.getD j2 false = true → rank cur < rank j2) →
      rank cur < fuel →
      ∃ st2, env.TopoVisit pol fuel cur st = (st2, VisitRes.ok)) :
    ∀ l cur st, cur < env.m_Suites.length → TopoInv env st →
      (∀ nm ∈ l, ∃ j, mapFind env.m_SuiteMap nm = some j ∧ rank j < rank cur) →
      (∀ j2, st.markSecond.getD j2 false = true → rank cur ≤ rank j2) →
      rank cur ≤ fuel →
      ∃ st2, env.visitDeps pol (env.TopoVisit pol fuel) cur l st
        = (st2, VisitRes.ok) := by
  intro l
  induction l with
  | nil =>
    intro cur st hcur hinv hl hstk hfuel
    exact ⟨st, visitDeps_nil_unfold env pol _ cur st⟩
  | cons d rest ihl =>
    intro cur st hcur hinv hl hstk hfuel
    by_cases hmfc : st.markFirst.getD cur false = true
    · obtain ⟨st2, h2⟩ := ihl cur st hcur hinv
        (fun nm hnm => hl nm (List.mem_cons_of_mem d hnm)) hstk hfuel
      refine ⟨st2, ?_⟩
      rw [visitDeps_cons_unfold, if_pos hmfc]
      exact h2
    · obtain ⟨j, hfind, hrj⟩ := hl d (List.mem_cons_self d rest)
      obtain ⟨stm, hv⟩ := hPc j st (hwf d j hfind) hinv
        (fun j2 h2 => lt_of_lt_of_le hrj (hstk j2 h2))
        (lt_of_lt_of_le hrj hfuel)
      have hok := topo_ok_visit env pol hwf fuel j st stm (hwf d j hfind) hinv hv
      obtain ⟨st2, h2⟩ := ihl cur stm hcur hok.1.1
        (fun nm hnm => hl nm (List.mem_cons_of_mem d hnm))
        (fun j2 h2 => by
          rw [hok.1.2.2.2.1 j2] at h2
          exact hstk j2 h2)
        hfuel
      refine ⟨st2, ?_⟩
      rw [visitDeps_cons_unfold, if_neg hmfc]
      simp only [hfind, hv]
      exact h2

/-- Completeness of `TopoVisit`: on an acyclic resolvable graph (witnessed
by a rank function decreasing along edges), a visit with enough fuel
succeeds. -/
theorem topo_complete_visit {σ : Type} (env : Environment) (pol : ControlCallback σ)
    (hwf : ∀ nm j, mapFind env.m_SuiteMap nm = some j → j < env.m_Suites.length)
    (rank : Nat → Nat)
    (hacyc : ∀ cur j nm, cur < env.m_Suites.length →
      nm ∈ (env.suiteAt cur).m_Dependencies →
      mapFind env.m_SuiteMap nm = some j → rank j < rank cur)
    (hres : ∀ cur nm, cur < env.m_Suites.length →
      nm ∈ (env.suiteAt cur).m_Dependencies →
      (mapFind env.m_SuiteMap nm).isSome = true) :
    ∀ fuel cur st, cur < env.m_Suites.length → TopoInv env st →
      (∀ j2, st.markSecond.getD j2 false = true → rank cur < rank j2) →
      rank cur < fuel →
      ∃ st2, env.TopoVisit pol fuel cur st = (st2, VisitRes.ok) := by
  intro fuel
  induction fuel with
  | zero =>
    intro cur st hcur hinv hstk hfuel
    exact absurd hfuel (Nat.not_lt_zero _)
  | succ fuel ih =>
    intro cur st hcur hinv hstk hfuel
    have hms : st.markSecond.getD cur false = false := by
      cases hcase : st.markSecond.getD cur false with
      | false => rfl
      | true => exact absurd (hstk cur hcase) (lt_irrefl _)
    have hmscond : ¬ (st.markSecond.getD cur false = true) := by
      rw [hms]
      simp
    by_cases hmf : st.markFirst.getD cur false = true
    · refine ⟨st, ?_⟩
      rw [TopoVisit_succ_unfold, if_neg hmscond, if_pos hmf]
    · have hmf2 : st.markFirst.getD cur false = false := bool_not_true hmf
      have hinv1 := topoInv_set_second env st cur hinv hcur hmf2
      have hl : ∀ nm ∈ (env.suiteAt cur).m_Dependencies,
          ∃ j, mapFind env.m_SuiteMap nm = some j ∧ rank j < rank cur := by
        intro nm hnm
        have hsome := hres cur nm hcur hnm
        cases hfind : mapFind env.m_SuiteMap nm with
        | none => rw [hfind] at hsome; exact Bool.noConfusion hsome
        | some j => exact ⟨j, rfl, hacyc cur j nm hcur hnm hfind⟩
      have hstk1 : ∀ j2, ({ st with markSecond := st.markSecond.set cur true }
          : TopoState σ).markSecond.getD j2 false = true → rank cur ≤ rank j2 := by
        intro j2 h2
        by_cases he : cur = j2
        · subst he
          exact Nat.le_refl _
        · rw [getD_set_ne _ _ _ _ _ he] at h2
          exact Nat.le_of_lt (hstk j2 h2)
      obtain ⟨stv, hv⟩ := topo_complete_deps env pol hwf rank fuel ih
        (env.suiteAt cur).m_Dependencies cur
        { st with markSecond := st.markSecond.set cur true }
        hcur hinv1 hl hstk1 (Nat.le_of_lt_succ hfuel)
      refine ⟨{ stv with markFirst := stv.markFirst.set cur true,
                         markSecond := stv.markSecond.set cur false,
                         result := stv.result ++ [cur] }, ?_⟩
      rw [TopoVisit_succ_unfold, if_neg hmscond, if_neg hmf]
      simp only [hv]

/-- Completeness of the root loop on an acyclic resolvable graph. -/
theorem solveLoop_complete {σ : Type} (env : Environment) (pol : ControlCallback σ)
    (hwf : ∀ nm j, mapFind env.m_SuiteMap nm = some j → j < env.m_Suites.length)
    (rank : Nat → Nat) (fuel : Nat)
    (hacyc : ∀ cur j nm, cur < env.m_Suites.length →
      nm ∈ (env.suiteAt cur).m_Dependencies →
      mapFind env.m_SuiteMap nm = some j → rank j < rank cur)
    (hres : ∀ cur nm, cur < env.m_Suites.length →
      nm ∈ (env.suiteAt cur).m_Dependencies →
      (mapFind env.m_SuiteMap nm).isSome = true)
    (hfuel : ∀ j, j < env.m_Suites.length → rank j < fuel) :
    ∀ rem i st, i + rem = env.m_Suites.length → TopoInv env st →
      (∀ j2, st.markSecond.getD j2 false = false) →
      ∃ order ps, env.solveLoop pol fuel rem i st = SolveRes.success order ps := by
  intro rem
  induction rem with
  | zero =>
    intro i st hsum hinv hsec
    exact ⟨st.result, st.ps, solveLoop_zero_unfold env pol fuel i st⟩
  | succ rem ih =>
    intro i st hsum hinv hsec
    by_cases hc : ¬ st.markFirst.getD i false ∧ env.AllowSuite (env.suiteAt i)
    · have hi : i < env.m_Suites.length := by omega
      obtain ⟨st1, hv⟩ := topo_complete_visit env pol hwf rank hacyc hres fuel i st
        hi hinv
        (fun j2 h2 => by rw [hsec j2] at h2; exact Bool.noConfusion h2)
        (hfuel i hi)
      have hok := topo_ok_visit env pol hwf fuel i st st1 hi hinv hv
      obtain ⟨order, ps, hrest⟩ := ih (i + 1) st1 (by omega) hok.1.1
        (fun j2 => by rw [hok.1.2.2.2.1 j2]; exact hsec j2)
      refine ⟨order, ps, ?_⟩
      rw [solveLoop_succ_unfold, if_pos hc]
      simp only [hv]
      exact hrest
    · obtain ⟨order, ps, hrest⟩ := ih (i + 1) st (by omega) hinv hsec
      refine ⟨order, ps, ?_⟩
      rw [solveLoop_succ_unfold, if_neg hc]
      exact hrest

/-- Completeness of `SolveDependencies` on an acyclic resolvable graph. -/
theorem solveDependencies_complete {σ : Type} (env : Environment)
    (pol : ControlCallback σ)
    (hwf : ∀ nm j, mapFind env.m_SuiteMap nm = some j → j < env.m_Suites.length)
    (rank : Nat → Nat) (fuel : Nat)
    (hacyc : ∀ cur j nm, cur < env.m_Suites.length →
      nm ∈ (env.suiteAt cur).m_Dependencies →
      mapFind env.m_SuiteMap nm = some j → rank j < rank cur)
    (hres : ∀ cur nm, cur < env.m_Suites.length →
      nm ∈ (env.suiteAt cur).m_Dependencies →
      (mapFind env.m_SuiteMap nm).isSome = true)
    (hfuel : ∀ j, j < env.m_Suites.length → rank j < fuel) (s : σ) :
    ∃ order ps, env.SolveDependencies pol fuel s = SolveRes.success order ps :=
  solveLoop_complete env pol hwf rank fuel hacyc hres hfuel
    env.m_Suites.length 0 _ (by omega) (topoInv_init env s)
    (fun j2 => getD_replicate_false _ j2)

theorem firstIdxOfName_lt : ∀ (l : List Suite) (nm : String) (j : Nat),
    firstIdxOfName l nm = some j → j < l.length := by
  intro l
  induction l with
  | nil =>
    intro nm j h
    exact Option.noConfusion h
  | cons su rest ih =>
    intro nm j h
    rw [firstIdxOfName] at h
    by_cases he : su.m_Info.name = nm
    · rw [if_pos he] at h
      injection h with h1
      subst h1
      simp
    · rw [if_neg he] at h
      cases hr : firstIdxOfName rest nm with
      | none => rw [hr] at h; exact Option.noConfusion h
      | some j2 =>
        rw [hr] at h
        injection h with h1
        subst h1
        have := ih nm j2 hr
        simp
        omega

theorem firstIdxOfName_get : ∀ (l : List Suite),
    (l.map (fun su => su.m_Info.name)).Nodup →
    ∀ (i : Nat) (hi : i < l.length),
      firstIdxOfName l ((l.get ⟨i, hi⟩).m_Info.name) = some i := by
  intro l
  induction l with
  | nil =>
    intro _ i hi
    exact absurd hi (by simp)
  | cons su rest ih =>
    intro hnodup i hi
    rw [List.map_cons, List.nodup_cons] at hnodup
    match i with
    | 0 =>
      simp [firstIdxOfName]
    | Nat.succ i2 =>
      have hi2 : i2 < rest.length := by
        simp at hi
        omega
      have hne : ¬ su.m_Info.name = ((rest.get ⟨i2, hi2⟩).m_Info.name) := by
        intro he
        apply hnodup.1
        rw [he]
        exact List.mem_map_of_mem _ (rest.get_mem i2 hi2)
      have hget : ((su :: rest).get ⟨i2 + 1, hi⟩) = rest.get ⟨i2, hi2⟩ := rfl
      rw [hget, firstIdxOfName, if_neg hne, ih hnodup.2 i2 hi2]
      rfl

/-- In an environment built by registration from suites with pairwise
distinct names, every suite's own name resolves back to its index. -/
theorem registerAll_lookup_self (suites : List Suite)
    (hnames : (suites.map (fun su => su.m_Info.name)).Nodup)
    (i : Nat) (hi : i < suites.length) :
    mapFind (registerAll suites).m_SuiteMap
        (((registerAll suites).suiteAt i).m_Info.name) = some i := by
  have hsu : (registerAll suites).suiteAt i = suites.get ⟨i, hi⟩ := by
    rw [Environment.suiteAt, registerAll_suites]
    exact List.getD_eq_getElem suites Suite.empty hi
  rw [hsu, registerAll_lookup]
  exact firstIdxOfName_get suites hnames i hi

/-- Registration produces a well-formed name map: every resolved index is a
valid suite index. -/
theorem registerAll_wf (suites : List Suite) :
    ∀ nm j, mapFind (registerAll suites).m_SuiteMap nm = some j →
      j < (registerAll suites).m_Suites.length := by
  intro nm j h
  rw [registerAll_lookup] at h
  rw [registerAll_suites]
  exact firstIdxOfName_lt suites nm j h

theorem runPrefixOk_nil_unfold {σ : Type} (env : Environment) (pol : ControlCallback σ)
    (tfuel : Nat) (rs : RunState σ) :
    env.runPrefixOk pol tfuel [] rs = some rs := rfl

theorem runPrefixOk_cons_unfold {σ : Type} (env : Environment) (pol : ControlCallback σ)
    (tfuel : Nat) (i : Nat) (rest : List Nat) (rs : RunState σ) :
    env.runPrefixOk pol tfuel (i :: rest) rs
      = (match env.processSuite pol tfuel rs i with
         | some (true, _, rs1) => env.runPrefixOk pol tfuel rest rs1
         | _ => none) := rfl

/-- Every `RunSuites` iteration appends the produced suite outcome to the
environment outcome and records its position in the `resultConnector` slot
found by name lookup. -/
theorem processSuite_record {σ : Type} (env : Environment) (pol : ControlCallback σ)
    (tfuel : Nat) (rs : RunState σ) (i : Nat) (pr : Bool) (sr : SuiteResult)
    (rs1 : RunState σ)
    (hp : env.processSuite pol tfuel rs i = some (pr, sr, rs1)) :
    rs1.er = rs.er.AddResult sr ∧
    rs1.rc = rs.rc.set ((mapFind env.m_SuiteMap (env.suiteAt i).m_Info.name).getD 0)
      rs.er.results.length := by
  revert hp
  simp only [Environment.processSuite]
  cases hcd : env.CheckDependencies pol (env.suiteAt i) rs.er rs.rc rs.ps with
  | mk c s1 =>
    cases c with
    | ok =>
      cases hrun : Suite.Run pol tfuel (env.suiteAt i) s1 with
      | none =>
        intro hp
        simp [hrun] at hp
      | some v =>
        obtain ⟨pr2, sr2, s3⟩ := v
        intro hp
        simp only [hrun, Option.some.injEq, Prod.mk.injEq] at hp
        obtain ⟨ha1, ha2, ha3⟩ := hp
        rw [← ha3, ← ha2]
        exact ⟨rfl, rfl⟩
    | stop p =>
      intro hp
      simp only [Option.some.injEq, Prod.mk.injEq] at hp
      obtain ⟨ha1, ha2, ha3⟩ := hp
      rw [← ha3, ← ha2]
      exact ⟨rfl, rfl⟩

/-- Bookkeeping of an abort-free `RunSuites` prefix over distinct valid
suite indices whose names resolve to themselves: one outcome is appended per
suite, in order; each processed suite's `resultConnector` slot holds the
position of the outcome recorded for it, and that position holds exactly the
outcome its `processSuite` step produced. -/
theorem runPrefix_spec {σ : Type} (env : Environment) (pol : ControlCallback σ)
    (tfuel : Nat) :
    ∀ (l : List Nat) (rs rs2 : RunState σ),
      l.Nodup →
      (∀ j ∈ l, mapFind env.m_SuiteMap (env.suiteAt j).m_Info.name = some j) →
      (∀ j ∈ l, j < rs.rc.length) →
      env.runPrefixOk pol tfuel l rs = some rs2 →
      rs2.er.results.length = rs.er.results.length + l.length ∧
      rs2.rc.length = rs.rc.length ∧
      rs.er.results <+: rs2.er.results ∧
      (∀ j, j ∉ l → rs2.rc.getD j 0 = rs.rc.getD j 0) ∧
      (∀ q j, l.get? q = some j →
        rs2.rc.getD j 0 = rs.er.results.length + q ∧
        ∃ rsq srq rsq2,
          env.runPrefixOk pol tfuel (l.take q) rs = some rsq ∧
          env.processSuite pol tfuel rsq j = some (true, srq, rsq2) ∧
          rs2.er.results.get? (rs.er.results.length + q) = some srq) := by
  intro l
  induction l with
  | nil =>
    intro rs rs2 hnd hself hbound hp
    rw [runPrefixOk_nil_unfold] at hp
    injection hp with h1
    subst h1
    refine ⟨by simp, rfl, List.prefix_refl _, fun j _ => rfl, ?_⟩
    intro q j hq
    simp at hq
  | cons i rest ih =>
    intro rs rs2 hnd hself hbound hp
    rw [runPrefixOk_cons_unfold] at hp
    cases hps : env.processSuite pol tfuel rs i with
    | none => rw [hps] at hp; exact Option.noConfusion hp
    | some v =>
      obtain ⟨pr, sr1, rs1⟩ := v
      rw [hps] at hp
      cases pr with
      | false => exact Option.noConfusion hp
      | true =>
        rw [List.nodup_cons] at hnd
        have hrec := processSuite_record env pol tfuel rs i true sr1 rs1 hps
        have hslot : (mapFind env.m_SuiteMap (env.suiteAt i).m_Info.name).getD 0 = i := by
          rw [hself i (List.mem_cons_self i rest)]
          rfl
        have hrc1 : rs1.rc = rs.rc.set i rs.er.results.length := by
          rw [hrec.2, hslot]
        have her1 : rs1.er.results = rs.er.results ++ [sr1] := by
          rw [hrec.1]
          rfl
        have hlen1 : rs1.er.results.length = rs.er.results.length + 1 := by
          rw [her1]
          simp
        have hrclen1 : rs1.rc.length = rs.rc.length := by
          rw [hrc1]
          simp
        have hibound : i < rs.rc.length := hbound i (List.mem_cons_self i rest)
        have hih := ih rs1 rs2 hnd.2
          (fun j hj => hself j (List.mem_cons_of_mem i hj))
          (fun j hj => by rw [hrclen1]; exact hbound j (List.mem_cons_of_mem i hj))
          hp
        obtain ⟨hLen, hRcLen, hPre, hUnch, hPos⟩ := hih
        refine ⟨?_, ?_, ?_, ?_, ?_⟩
        · rw [hLen, hlen1]
          simp
          omega
        · rw [hRcLen, hrclen1]
        · calc rs.er.results <+: rs1.er.results := by rw [her1]; exact ⟨[sr1], rfl⟩
            _ <+: rs2.er.results := hPre
        · intro j hj
          have hji : j ≠ i := fun he => hj (he ▸ List.mem_cons_self i rest)
          have hjr : j ∉ rest := fun hm => hj (List.mem_cons_of_mem i hm)
          rw [hUnch j hjr, hrc1, getD_set_ne _ _ _ _ _ (Ne.symm hji)]
        · intro q j hq
          match q with
          | 0 =>
            have hji : j = i := by
              injection hq with h1
              exact h1.symm
            subst hji
            have hnotr : j ∉ rest := hnd.1
            constructor
            · rw [hUnch j hnotr, hrc1, getD_set_self _ _ _ _ hibound]
              omega
            · refine ⟨rs, sr1, rs1, ?_, hps, ?_⟩
              · rw [List.take_zero, runPrefixOk_nil_unfold]
              · have hg : rs1.er.results.get? rs.er.results.length = some sr1 := by
                  rw [her1]
                  simp [List.get?_eq_getElem?]
                rw [Nat.add_zero]
                rw [← hg]
                exact get?_prefix hPre (by omega)
          | Nat.succ q2 =>
            have hq2 : rest.get? q2 = some j := hq
            obtain ⟨hrc2, rsq, srq, rsq2, hpq, hpsq, hgq⟩ := hPos q2 j hq2
            constructor
            · rw [hrc2, hlen1]
              omega
            · refine ⟨rsq, srq, rsq2, ?_, hpsq, ?_⟩
              · rw [List.take_succ_cons, runPrefixOk_cons_unfold, hps]
                exact hpq
              · rw [show rs.er.results.length + (q2 + 1)
                    = rs1.er.results.length + q2 by omega]
                exact hgq

theorem registerAll_length (suites : List Suite) :
    (registerAll suites).m_Suites.length = suites.length := by
  rw [registerAll_suites]

/-- C2: in an environment of distinctly named suites whose dependency graph
is acyclic (witnessed by a rank function decreasing along resolved edges)
and whose dependency names all resolve, `SolveDependencies` succeeds (given
fuel above every rank), and for every order it returns: the order has no
duplicates; every suite appears strictly after each suite its dependency
names resolve to; and when `RunSuites` reaches a suite A without an earlier
abort, then for each dependency of A resolving to B, B was processed at an
earlier position, the environment outcome already holds exactly the earlier
outcomes, the `resultConnector` slot for B — the slot A's dependency check
reads — points at B's position, and the outcome stored there is exactly the
one B's own iteration produced. -/
theorem topological_order_and_dependency_results {σ : Type}
    (suites : List Suite)
    (hnames : (suites.map (fun su => su.m_Info.name)).Nodup)
    (pol : ControlCallback σ) (fuel tfuel : Nat) (s : σ)
    (rank : Nat → Nat)
    (hacyc : ∀ i j nm, i < suites.length →
      nm ∈ ((registerAll suites).suiteAt i).m_Dependencies →
      mapFind (registerAll suites).m_SuiteMap nm = some j → rank j < rank i)
    (hres : ∀ i nm, i < suites.length →
      nm ∈ ((registerAll suites).suiteAt i).m_Dependencies →
      (mapFind (registerAll suites).m_SuiteMap nm).isSome = true)
    (hfuel : ∀ i, i < suites.length → rank i < fuel) :
    (∃ order ps, (registerAll suites).SolveDependencies pol fuel s
        = SolveRes.success order ps) ∧
    (∀ order ps, (registerAll suites).SolveDependencies pol fuel s
        = SolveRes.success order ps →
      order.Nodup ∧
      (∀ k iA, order.get? k = some iA →
        ∀ nm ∈ ((registerAll suites).suiteAt iA).m_Dependencies,
        ∀ iB, mapFind (registerAll suites).m_SuiteMap nm = some iB →
          ∃ p2, p2 < k ∧ order.get? p2 = some iB) ∧
      (∀ k iA rsk, order.get? k = some iA →
        (registerAll suites).runPrefixOk pol tfuel (order.take k)
            { er := EnvResult.empty, rc := List.replicate suites.length 0, ps := s }
          = some rsk →
        ∀ nm ∈ ((registerAll suites).suiteAt iA).m_Dependencies,
        ∀ iB, mapFind (registerAll suites).m_SuiteMap nm = some iB →
          ∃ p2 srB, p2 < k ∧ order.get? p2 = some iB ∧
            rsk.er.results.length = k ∧
            rsk.rc.getD iB 0 = p2 ∧
            rsk.er.results.get? p2 = some srB ∧
            ∃ rsp rsp2,
              (registerAll suites).runPrefixOk pol tfuel (order.take p2)
                  { er := EnvResult.empty, rc := List.replicate suites.length 0,
                    ps := s }
                = some rsp ∧
              (registerAll suites).processSuite pol tfuel rsp iB
                = some (true, srB, rsp2))) := by
  have hlen := registerAll_length suites
  have hwf := registerAll_wf suites
  constructor
  · exact solveDependencies_complete (registerAll suites) pol hwf rank fuel
      (fun cur j nm hc => hacyc cur j nm (by omega))
      (fun cur nm hc => hres cur nm (by omega))
      (fun j hj => hfuel j (by omega)) s
  · intro order ps hsolve
    obtain ⟨hsorted, hnodup, hbound⟩ :=
      solveDependencies_sound (registerAll suites) pol fuel s order ps hwf hsolve
    have hBbeforeA : ∀ k iA, order.get? k = some iA →
        ∀ nm ∈ ((registerAll suites).suiteAt iA).m_Dependencies,
        ∀ iB, mapFind (registerAll suites).m_SuiteMap nm = some iB →
          ∃ p2, p2 < k ∧ order.get? p2 = some iB := by
      intro k iA hk nm hnm iB hfind
      have hmemdep : iB ∈ depIdxs (registerAll suites) iA := by
        rw [depIdxs, List.mem_filterMap]
        exact ⟨nm, hnm, hfind⟩
      have hmem : iB ∈ order.take k := hsorted k iA hk iB hmemdep
      obtain ⟨p2, hp2⟩ := List.get?_of_mem hmem
      have hp2lt : p2 < (order.take k).length := by
        rw [List.get?_eq_getElem?] at hp2
        exact (List.getElem?_eq_some.mp hp2).1
      have hklen : k < order.length := by
        rw [List.get?_eq_getElem?] at hk
        exact (List.getElem?_eq_some.mp hk).1
      have hp2k : p2 < k := by
        have : (order.take k).length = k := by
          simp [List.length_take]
          omega
        omega
      refine ⟨p2, hp2k, ?_⟩
      rw [← hp2, List.get?_eq_getElem?, List.get?_eq_getElem?,
        List.getElem?_take_of_lt hp2k]
    refine ⟨hnodup, hBbeforeA, ?_⟩
    intro k iA rsk hk hpre nm hnm iB hfind
    obtain ⟨p2, hp2k, hp2⟩ := hBbeforeA k iA hk nm hnm iB hfind
    have hklen : k < order.length := by
      rw [List.get?_eq_getElem?] at hk
      exact (List.getElem?_eq_some.mp hk).1
    have htklen : (order.take k).length = k := by
      simp [List.length_take]
      omega
    have htknd : (order.take k).Nodup := hnodup.sublist (List.take_sublist k order)
    have htkself : ∀ j ∈ order.take k,
        mapFind (registerAll suites).m_SuiteMap
          (((registerAll suites).suiteAt j).m_Info.name) = some j := by
      intro j hj
      have hjn : j < suites.length := by
        have := hbound j (List.mem_of_mem_take hj)
        omega
      exact registerAll_lookup_self suites hnames j hjn
    have htkbound : ∀ j ∈ order.take k,
        j < (List.replicate suites.length (0 : Nat)).length := by
      intro j hj
      have := hbound j (List.mem_of_mem_take hj)
      simp
      omega
    obtain ⟨hLen, hRcLen, hPre, hUnch, hPos⟩ :=
      runPrefix_spec (registerAll suites) pol tfuel (order.take k)
        { er := EnvResult.empty, rc := List.replicate suites.length 0, ps := s }
        rsk htknd htkself htkbound hpre
    have hgtk : (order.take k).get? p2 = some iB := by
      rw [List.get?_eq_getElem?, List.getElem?_take_of_lt hp2k,
        ← List.get?_eq_getElem?]
      exact hp2
    obtain ⟨hrcB, rsq, srq, rsq2, hpq, hpsq, hgq⟩ := hPos p2 iB hgtk
    have htake2 : (order.take k).take p2 = order.take p2 := by
      rw [List.take_take]
      congr 1
      omega
    refine ⟨p2, srq, hp2k, hp2, ?_, ?_, ?_, rsq, rsq2, ?_, hpsq⟩
    · rw [hLen, htklen]
      simp [EnvResult.empty]
    · rw [hrcB]
      simp [EnvResult.empty]
    · simpa [EnvResult.empty] using hgq
    · rw [← htake2]
      exact hpq

/-- A concrete dependency-free suite named B. -/
def depSuiteB : Suite :=
{ Suite.empty with m_Info := { name := "B", file := "", line := 0 } }

/-- A concrete suite named A depending on B. -/
def depSuiteA : Suite :=
{ Suite.empty with m_Info := { name := "A", file := "", line := 0 },
                   m_Dependencies := ["B"] }

/-- Witness for C2 at the concrete environment with suite B registered
before suite A, which depends on it, ranked by registration index. -/
theorem topological_order_and_dependency_results_witness :
    (∃ order ps, (registerAll [depSuiteB, depSuiteA]).SolveDependencies abortAllPol 2 ()
        = SolveRes.success order ps) ∧
    (∀ order ps, (registerAll [depSuiteB, depSuiteA]).SolveDependencies abortAllPol 2 ()
        = SolveRes.success order ps →
      order.Nodup ∧
      (∀ k iA, order.get? k = some iA →
        ∀ nm ∈ ((registerAll [depSuiteB, depSuiteA]).suiteAt iA).m_Dependencies,
        ∀ iB, mapFind (registerAll [depSuiteB, depSuiteA]).m_SuiteMap nm = some iB →
          ∃ p2, p2 < k ∧ order.get? p2 = some iB) ∧
      (∀ k iA rsk, order.get? k = some iA →
        (registerAll [depSuiteB, depSuiteA]).runPrefixOk abortAllPol 5 (order.take k)
            { er := EnvResult.empty,
              rc := List.replicate [depSuiteB, depSuiteA].length 0, ps := () }
          = some rsk →
        ∀ nm ∈ ((registerAll [depSuiteB, depSuiteA]).suiteAt iA).m_Dependencies,
        ∀ iB, mapFind (registerAll [depSuiteB, depSuiteA]).m_SuiteMap nm = some iB →
          ∃ p2 srB, p2 < k ∧ order.get? p2 = some iB ∧
            rsk.er.results.length = k ∧
            rsk.rc.getD iB 0 = p2 ∧
            rsk.er.results.get? p2 = some srB ∧
            ∃ rsp rsp2,
              (registerAll [depSuiteB, depSuiteA]).runPrefixOk abortAllPol 5
                  (order.take p2)
                  { er := EnvResult.empty,
                    rc := List.replicate [depSuiteB, depSuiteA].length 0, ps := () }
                = some rsp ∧
              (registerAll [depSuiteB, depSuiteA]).processSuite abortAllPol 5 rsp iB
                = some (true, srB, rsp2))) := by
  have hA : ((registerAll [depSuiteB, depSuiteA]).suiteAt 0).m_Dependencies = [] := rfl
  have hB : ((registerAll [depSuiteB, depSuiteA]).suiteAt 1).m_Dependencies = ["B"] := rfl
  have hf : mapFind (registerAll [depSuiteB, depSuiteA]).m_SuiteMap ("B") = some 0 := rfl
  refine topological_order_and_dependency_results [depSuiteB, depSuiteA]
    (by decide) abortAllPol 2 5 () (fun i => i) ?_ ?_ ?_
  · intro i j nm hi hnm hfind
    rcases i with _ | _ | i2
    · rw [hA] at hnm
      exact absurd hnm (List.not_mem_nil nm)
    · rw [hB, List.mem_singleton] at hnm
      subst hnm
      rw [hf] at hfind
      injection hfind with hj
      show j < 0 + 1
      omega
    · simp at hi
      omega
  · intro i nm hi hnm
    rcases i with _ | _ | i2
    · rw [hA] at hnm
      exact absurd hnm (List.not_mem_nil nm)
    · rw [hB, List.mem_singleton] at hnm
      subst hnm
      rw [hf]
      rfl
    · simp at hi
      omega
  · intro i hi
    show i < 2
    simp at hi
    omega

end UnitTesting